import Mathlib

/-!
Shallow embedding of the real-time WebSocket manager of the EDOS detection kit
(`backend/app/realtime_manager.py`, class `RealTimeManager`) together with the
authentication prefix of the WebSocket endpoints
(`backend/app/api/websockets.py`).

Python dictionaries are modelled as association lists (first binding wins on
lookup, as there is at most one binding per key in a Python dict), Python sets
of WebSocket objects as `Finset Nat` (reference identity of a WebSocket is a
natural number), and `asyncio.Task` objects as records in a task heap keyed by
a fresh identifier, with an explicit status (`running`, cancellation requested,
finished).  Sends that can fail are modelled by a `sendOk : Conn → Bool`
environment parameter; randomness in the sample-data generator is modelled by
an explicit random-source record.
-/

namespace RTM

/-- A WebSocket connection, identified by reference identity. -/
abbrev Conn := Nat

/-- A topic name. -/
abbrev Topic := String

/-- A user identifier (the `user_id` strings of the Python code). -/
abbrev UserId := String

/-- Lookup in a Python-dict-like association list: the first binding wins. -/
def alookup {α β : Type} [DecidableEq α] : List (α × β) → α → Option β
  | [], _ => none
  | (k, v) :: rest, key => if k = key then some v else alookup rest key

/-- Python dict assignment `d[key] = val`: replace the binding if the key is
present, otherwise append a new binding. -/
def ainsert {α β : Type} [DecidableEq α] : List (α × β) → α → β → List (α × β)
  | [], key, val => [(key, val)]
  | (k, v) :: rest, key, val =>
      if k = key then (key, val) :: rest else (k, v) :: ainsert rest key val

/-- Python `del d[key]`: remove the binding for `key`. -/
def aerase {α β : Type} [DecidableEq α] : List (α × β) → α → List (α × β)
  | [], _ => []
  | (k, v) :: rest, key =>
      if k = key then aerase rest key else (k, v) :: aerase rest key

/-- Status of an `asyncio.Task`: still running, cancellation requested by
`task.cancel()` but not yet observed, or finished (`task.done()` is true —
whether it completed, was cancelled, or died on an exception). -/
inductive TaskSt where
  | running
  | cancelRequested
  | finished
deriving DecidableEq

/-- A record for one created streaming task: the topic its loop streams, and
its current status. -/
structure TaskRec where
  topic : Topic
  status : TaskSt
deriving DecidableEq

/-- The state of a `RealTimeManager` instance.

* `active` is `self.active_connections : Dict[str, Set[WebSocket]]`;
* `users` is `self.user_connections : Dict[str, Dict[str, Set[WebSocket]]]`;
* `tasks` is `self.streaming_tasks : Dict[str, asyncio.Task]`, mapping a topic
  to the identifier of the task object currently stored for it;
* `taskHeap` records every task ever created (a task object keeps running even
  if the dict no longer references it), keyed by identifier;
* `nextTask` is the next fresh task identifier. -/
structure Mgr where
  active : List (Topic × Finset Conn)
  users : List (UserId × List (Topic × Finset Conn))
  tasks : List (Topic × Nat)
  taskHeap : List (Nat × TaskRec)
  nextTask : Nat
deriving DecidableEq

/-- `RealTimeManager.__init__`: the six canonical topics start with empty
connection sets; no user connections; no streaming tasks. -/
def initMgr : Mgr where
  active := [("alerts", ∅), ("metrics", ∅), ("network", ∅), ("logs", ∅),
             ("resources", ∅), ("general", ∅)]
  users := []
  tasks := []
  taskHeap := []
  nextTask := 0

/-- The set of connections the manager currently holds for a topic
(`self.active_connections.get(topic)`, reading a missing key as empty). -/
def activeL (s : Mgr) (t : Topic) : Finset Conn :=
  (alookup s.active t).getD ∅

/-- The set of connections the manager currently holds for a `(user, topic)`
pair, reading missing keys as empty. -/
def userL (s : Mgr) (u : UserId) (t : Topic) : Finset Conn :=
  (alookup ((alookup s.users u).getD []) t).getD ∅

/-- `task.done()` for the task with identifier `tid`. -/
def taskDone (s : Mgr) (tid : Nat) : Bool :=
  match alookup s.taskHeap tid with
  | some rec => rec.status = TaskSt.finished
  | none => true

/-- The status of the task currently stored for topic `t`, if any. -/
def taskStatus (s : Mgr) (t : Topic) : Option TaskSt :=
  match alookup s.tasks t with
  | some tid =>
      match alookup s.taskHeap tid with
      | some rec => some rec.status
      | none => none
  | none => none

/-- `asyncio.create_task(self._stream_topic_data(topic))` plus
`self.streaming_tasks[topic] = ...`: allocate a fresh running task for the
topic and store it in the task dict. -/
def startTask (s : Mgr) (topic : Topic) : Mgr :=
  { s with tasks := ainsert s.tasks topic s.nextTask,
           taskHeap := ainsert s.taskHeap s.nextTask ⟨topic, TaskSt.running⟩,
           nextTask := s.nextTask + 1 }

/-- `task.cancel()`: request cancellation of a running task; cancelling a task
that already finished, or whose cancellation is already requested, changes
nothing. -/
def cancelTask (s : Mgr) (tid : Nat) : Mgr :=
  match alookup s.taskHeap tid with
  | some rec =>
      match rec.status with
      | TaskSt.running =>
          { s with taskHeap :=
              ainsert s.taskHeap tid ⟨rec.topic, TaskSt.cancelRequested⟩ }
      | _ => s
  | none => s

/-- The task with identifier `tid` finishes (its coroutine returns, or its
requested cancellation is delivered). -/
def markDone (s : Mgr) (tid : Nat) : Mgr :=
  match alookup s.taskHeap tid with
  | some rec =>
      { s with taskHeap := ainsert s.taskHeap tid ⟨rec.topic, TaskSt.finished⟩ }
  | none => s

/-- First statement group of `RealTimeManager.connect`: add the websocket to
the topic-based connection set (creating the topic key if needed). -/
def connectActive (s : Mgr) (ws : Conn) (topic : Topic) : Mgr :=
  match alookup s.active topic with
  | some conns => { s with active := ainsert s.active topic (insert ws conns) }
  | none => { s with active := ainsert s.active topic {ws} }

/-- Second statement group of `RealTimeManager.connect`: add the websocket to
the user-specific connections if a user id was provided.  Python's
`if user_id:` treats `None` and the empty string as absent. -/
def connectUsers (s : Mgr) (ws : Conn) (topic : Topic) (userId : Option UserId) :
    Mgr :=
  match userId with
  | none => s
  | some uid =>
      if uid = "" then s
      else
        let udict := (alookup s.users uid).getD []
        let tset := (alookup udict topic).getD ∅
        { s with users := ainsert s.users uid (ainsert udict topic (insert ws tset)) }

/-- Third statement group of `RealTimeManager.connect`: start the streaming
task for this topic if it is absent or its stored task is done. -/
def connectTask (s : Mgr) (topic : Topic) : Mgr :=
  match alookup s.tasks topic with
  | none => startTask s topic
  | some tid => if taskDone s tid then startTask s topic else s

/-- `RealTimeManager.connect(websocket, topic, user_id)` (the `await
websocket.accept()` call touches only the transport, not the registry). -/
def connect (s : Mgr) (ws : Conn) (topic : Topic) (userId : Option UserId) :
    Mgr :=
  connectTask (connectUsers (connectActive s ws topic) ws topic userId) topic

/-- First statement group of `RealTimeManager.disconnect`: discard the
websocket from the topic-based set, and cancel the streaming task when the
set has become empty and the stored task is not done. -/
def disconnectActive (s : Mgr) (ws : Conn) (topic : Topic) : Mgr :=
  match alookup s.active topic with
  | none => s
  | some conns =>
      let s' : Mgr := { s with active := ainsert s.active topic (conns.erase ws) }
      if conns.erase ws = ∅ then
        match alookup s'.tasks topic with
        | some tid => if taskDone s' tid then s' else cancelTask s' tid
        | none => s'
      else s'

/-- Second statement group of `RealTimeManager.disconnect`: discard the
websocket from the user-specific set and clean up now-empty per-user topic
entries and now-empty per-user top-level entries.  Python's
`if user_id and ...` treats `None` and the empty string as absent. -/
def disconnectUsers (s : Mgr) (ws : Conn) (topic : Topic)
    (userId : Option UserId) : Mgr :=
  match userId with
  | none => s
  | some uid =>
      if uid = "" then s
      else
        match alookup s.users uid with
        | none => s
        | some udict =>
            let udict' : List (Topic × Finset Conn) :=
              match alookup udict topic with
              | none => udict
              | some tset =>
                  let tset' := tset.erase ws
                  if tset' = ∅ then aerase udict topic
                  else ainsert udict topic tset'
            if udict' = [] then { s with users := aerase s.users uid }
            else { s with users := ainsert s.users uid udict' }

/-- `RealTimeManager.disconnect(websocket, topic, user_id)`. -/
def disconnect (s : Mgr) (ws : Conn) (topic : Topic) (userId : Option UserId) :
    Mgr :=
  disconnectUsers (disconnectActive s ws topic) ws topic userId

/-- The list iterated by `for websocket in some_set.copy()`: a stable snapshot
of the set, enumerated in ascending order of connection identity (Python's
set iteration order is arbitrary; no claim depends on the order). -/
def snapshotList (conns : Finset Conn) : List Conn :=
  (List.range (conns.sup id + 1)).filter (fun c => decide (c ∈ conns))

/-- Result of a broadcast pass: the registry state after the deferred
removals, and the connections the message was actually delivered to, in
iteration order. -/
structure BcastResult where
  state : Mgr
  delivered : List Conn


/-- `RealTimeManager.broadcast_to_topic(topic, data)`: iterate over a copy of
the topic's connection set, send to each connection (a failed send — the
environment's `sendOk ws = false` — is caught and the websocket collected),
then disconnect the collected websockets after the pass, without a user id. -/
def broadcastToTopic (s : Mgr) (topic : Topic) (sendOk : Conn → Bool) :
    BcastResult :=
  match alookup s.active topic with
  | none => ⟨s, []⟩
  | some conns =>
      let snapshot := snapshotList conns
      let failed := snapshot.filter (fun ws => !(sendOk ws))
      ⟨failed.foldl (fun st ws => disconnect st ws topic none) s,
       snapshot.filter (fun ws => sendOk ws)⟩

/-- `RealTimeManager.broadcast_to_user(user_id, topic, data)`: the same pass
restricted to the user's connection set for the topic; collected websockets
are disconnected with that user id after the pass. -/
def broadcastToUser (s : Mgr) (uid : UserId) (topic : Topic)
    (sendOk : Conn → Bool) : BcastResult :=
  match alookup s.users uid with
  | none => ⟨s, []⟩
  | some udict =>
      match alookup udict topic with
      | none => ⟨s, []⟩
      | some tset =>
          let snapshot := snapshotList tset
          let failed := snapshot.filter (fun ws => !(sendOk ws))
          ⟨failed.foldl (fun st ws => disconnect st ws topic (some uid)) s,
           snapshot.filter (fun ws => sendOk ws)⟩

/-- The random source consumed by `_generate_sample_data`
(`random.randint`, `random.choice`, `random.uniform`; floating-point results
of `random.uniform` are embedded as rationals). -/
structure Rng where
  randint : Nat → Nat → Nat
  choice : List String → String
  uniform : Rat → Rat → Rat

/-- The payloads `_generate_sample_data` can build, one constructor per
topic-specific dict shape. -/
inductive SampleData where
  | securityAlert (id : Nat)
      (severity alertType message timestamp sourceIp : String)
  | systemMetrics (cpuUsage memoryUsage networkThroughput : Rat)
      (activeConnections : Nat) (timestamp : String)
  | networkTraffic (sourceIp destinationIp protocol : String)
      (bytesTransferred : Nat) (timestamp status : String)
  | resourceStatus (resourceId resourceType status : String)
      (utilization : Rat) (timestamp : String)
deriving DecidableEq

/-- `RealTimeManager._generate_sample_data(topic)`: a payload for the four
handled topics, `None` for every other topic. -/
def generateSampleData (rng : Rng) (timestamp : String) (topic : Topic) :
    Option SampleData :=
  if topic = "alerts" then
    some (SampleData.securityAlert (rng.randint 1000 9999)
      (rng.choice ["high", "medium", "low"])
      (rng.choice ["ddos", "unauthorized_access", "resource_abuse"])
      "Real-time security alert detected" timestamp
      ("192.168.1." ++ toString (rng.randint 1 254)))
  else if topic = "metrics" then
    some (SampleData.systemMetrics (rng.uniform 10 90) (rng.uniform 20 80)
      (rng.uniform 100 1000) (rng.randint 50 200) timestamp)
  else if topic = "network" then
    some (SampleData.networkTraffic
      ("10.0." ++ toString (rng.randint 1 255) ++ "." ++
        toString (rng.randint 1 254))
      ("10.0." ++ toString (rng.randint 1 255) ++ "." ++
        toString (rng.randint 1 254))
      (rng.choice ["TCP", "UDP", "HTTP", "HTTPS"])
      (rng.randint 1024 1024000) timestamp
      (rng.choice ["normal", "suspicious"]))
  else if topic = "resources" then
    some (SampleData.resourceStatus ("vm-" ++ toString (rng.randint 1000 9999))
      (rng.choice ["vm", "container", "database"])
      (rng.choice ["running", "stopped", "error"])
      (rng.uniform 0 100) timestamp)
  else none

/-- One scheduling round of the task `tid` running
`RealTimeManager._stream_topic_data`:

* a finished task does nothing;
* a task whose cancellation was requested receives `CancelledError` at its
  `await asyncio.sleep(2)`, logs, and finishes — it broadcasts nothing;
* a running task first re-checks `while self.active_connections.get(topic):`
  and finishes (returning normally) if the set is empty or missing; otherwise
  it sleeps, then generates sample data and, if the data is not `None`,
  broadcasts it to the topic.  An unexpected exception (`raiseErr`) raised
  while generating or broadcasting propagates out of the `while` into the
  `except Exception` handler, is logged, and the coroutine returns: the task
  finishes.

The second component reports the broadcast performed this round, if any. -/
def tick (s : Mgr) (tid : Nat) (rng : Rng) (timestamp : String)
    (sendOk : Conn → Bool) (raiseErr : Bool) :
    Mgr × Option (Topic × SampleData) :=
  match alookup s.taskHeap tid with
  | none => (s, none)
  | some rec =>
      match rec.status with
      | TaskSt.finished => (s, none)
      | TaskSt.cancelRequested => (markDone s tid, none)
      | TaskSt.running =>
          if activeL s rec.topic = ∅ then (markDone s tid, none)
          else if raiseErr then (markDone s tid, none)
          else
            match generateSampleData rng timestamp rec.topic with
            | none => (s, none)
            | some d =>
                ((broadcastToTopic s rec.topic sendOk).state,
                 some (rec.topic, d))

/-- The record returned by `RealTimeManager.get_connection_stats`. -/
structure Stats where
  topicConnections : List (Topic × Nat)
  totalConnections : Nat
  activeTopics : Nat
  userSessions : Nat
deriving DecidableEq

/-- `RealTimeManager.get_connection_stats()`. -/
def getConnectionStats (s : Mgr) : Stats :=
  let stats := s.active.map (fun p => (p.1, p.2.card))
  { topicConnections := stats,
    totalConnections := (stats.map Prod.snd).sum,
    activeTopics := (s.active.filter (fun p => decide (p.2 ≠ ∅))).length,
    userSessions := s.users.length }

/-- The calls a client of the registry can make, plus the environment steps:
a broadcast initiated externally, and a scheduling round of a streaming task.
Send failures and the sample-data randomness are adversary-chosen. -/
inductive Op where
  | reg (ws : Conn) (topic : Topic) (uid : Option UserId)
  | dereg (ws : Conn) (topic : Topic) (uid : Option UserId)
  | bcast (topic : Topic) (sendOk : Conn → Bool)
  | bcastUser (uid : UserId) (topic : Topic) (sendOk : Conn → Bool)
  | tickOp (tid : Nat) (rng : Rng) (timestamp : String) (sendOk : Conn → Bool)
      (raiseErr : Bool)

/-- Apply one operation to a manager state. -/
def applyOp (s : Mgr) : Op → Mgr
  | Op.reg ws t u => connect s ws t u
  | Op.dereg ws t u => disconnect s ws t u
  | Op.bcast t ok => (broadcastToTopic s t ok).state
  | Op.bcastUser u t ok => (broadcastToUser s u t ok).state
  | Op.tickOp tid rng ts ok e => (tick s tid rng ts ok e).1

/-- The producer broadcast emitted by one operation: only a task scheduling
round can emit one. -/
def emitOp (s : Mgr) : Op → Option Topic
  | Op.tickOp tid rng ts ok e => (tick s tid rng ts ok e).2.map Prod.fst
  | _ => none

/-- Run a sequence of operations from the freshly constructed manager. -/
def runOps (ops : List Op) : Mgr := ops.foldl applyOp initMgr

/-- The topics of the producer broadcasts emitted while running `ops` from
state `s`, in order. -/
def emits : Mgr → List Op → List Topic
  | _, [] => []
  | s, op :: rest => (emitOp s op).toList ++ emits (applyOp s op) rest

/-- Does the operation register a connection on topic `t`? -/
def isRegOn (t : Topic) : Op → Bool
  | Op.reg _ t' _ => t' = t
  | _ => false

/-- A pure Register/Deregister call (the sequences claim C1 quantifies over). -/
inductive RegOp where
  | reg (ws : Conn) (topic : Topic) (uid : Option UserId)
  | dereg (ws : Conn) (topic : Topic) (uid : Option UserId)
deriving DecidableEq

/-- Apply one Register/Deregister call. -/
def applyRegOp (s : Mgr) : RegOp → Mgr
  | RegOp.reg ws t u => connect s ws t u
  | RegOp.dereg ws t u => disconnect s ws t u

/-- Run a sequence of Register/Deregister calls from the freshly constructed
manager. -/
def runReg (ops : List RegOp) : Mgr := ops.foldl applyRegOp initMgr

/-- The user id named by a Register/Deregister call, if any. -/
def regOpUid : RegOp → Option UserId
  | RegOp.reg _ _ u => u
  | RegOp.dereg _ _ u => u

/-- What `verify_token_ws(token)` in `websockets.py` can find: `jwt.decode`
raises (invalid, expired or malformed token), or succeeds with the `sub`
claim of the payload (`payload.get("sub")` may be `None`). -/
inductive TokenKind where
  | invalid
  | valid (sub : Option String)
deriving DecidableEq

/-- How a WebSocket endpoint call ends its authentication prefix: either the
connection is closed with a close code and reason, or a session starts for
the authenticated user. -/
inductive WsOutcome where
  | closed (code : Nat) (reason : String)
  | session (userId : String)
deriving DecidableEq

/-- The authentication prefix shared by `websocket_alerts`, `websocket_metrics`
and `websocket_network` in `backend/app/api/websockets.py`: no token supplied
(or an empty one, `if not token:`) closes with 4001 "Authentication required";
a token `jwt.decode` rejects closes with 4001 "Invalid token"; a decoded token
whose subject differs from the path `user_id` closes with 4003
"User ID mismatch"; otherwise the session proceeds. -/
def verifyAuth (token : Option TokenKind) (pathUserId : String) : WsOutcome :=
  match token with
  | none => WsOutcome.closed 4001 "Authentication required"
  | some TokenKind.invalid => WsOutcome.closed 4001 "Invalid token"
  | some (TokenKind.valid sub) =>
      if sub = some pathUserId then WsOutcome.session pathUserId
      else WsOutcome.closed 4003 "User ID mismatch"

/-- The close code of an endpoint outcome, if the connection was closed. -/
def closeCode : WsOutcome → Option Nat
  | WsOutcome.closed c _ => some c
  | WsOutcome.session _ => none

/-- The `websocket_alerts` endpoint up to and including registration: on any
authentication failure the connection is closed before
`realtime_manager.connect` is ever reached, so the registry state is returned
unchanged; on success the connection registers on the `alerts` topic under
the authenticated user id. -/
def websocketAlerts (s : Mgr) (ws : Conn) (token : Option TokenKind)
    (pathUserId : String) : Mgr × WsOutcome :=
  match verifyAuth token pathUserId with
  | WsOutcome.closed c r => (s, WsOutcome.closed c r)
  | WsOutcome.session uid =>
      (connect s ws "alerts" (some uid), WsOutcome.session uid)

/-- The `websocket_metrics` endpoint up to and including registration; its
authentication prefix is character-for-character the same checks and close
codes as `websocket_alerts`, with topic `metrics`. -/
def websocketMetrics (s : Mgr) (ws : Conn) (token : Option TokenKind)
    (pathUserId : String) : Mgr × WsOutcome :=
  match verifyAuth token pathUserId with
  | WsOutcome.closed c r => (s, WsOutcome.closed c r)
  | WsOutcome.session uid =>
      (connect s ws "metrics" (some uid), WsOutcome.session uid)

/-- One step of the counting the spec describes for a topic: the set of
connections currently registered and not yet deregistered for topic `t`.
Modelled from the spec's words ("the number of currently-registered,
not-yet-deregistered connections for that topic"), to be compared with what
the code reports. -/
def specLiveStep (t : Topic) (acc : Finset Conn) : RegOp → Finset Conn
  | RegOp.reg c t' _ => if t' = t then insert c acc else acc
  | RegOp.dereg c t' _ => if t' = t then acc.erase c else acc

/-- The spec-side set of live connections of topic `t` after a call
sequence. -/
def specLive (ops : List RegOp) (t : Topic) : Finset Conn :=
  ops.foldl (specLiveStep t) ∅

/-- One step of the spec-side counting of a user's subscriptions on a topic:
a Register naming this user and topic adds the connection, a Deregister
naming this user and topic removes it. -/
def specUserStep (u : UserId) (t : Topic) (acc : Finset Conn) :
    RegOp → Finset Conn
  | RegOp.reg c t' (some u') => if u' = u ∧ t' = t then insert c acc else acc
  | RegOp.dereg c t' (some u') => if u' = u ∧ t' = t then acc.erase c else acc
  | _ => acc

/-- The spec-side set of connections user `u` holds on topic `t` after a call
sequence (its user-scoped subscriptions not yet deregistered). -/
def specUserSubs (ops : List RegOp) (u : UserId) (t : Topic) : Finset Conn :=
  ops.foldl (specUserStep u t) ∅

/-- The users named by one Register/Deregister call. -/
def opUsers : RegOp → Finset UserId
  | RegOp.reg _ _ (some u) => {u}
  | RegOp.dereg _ _ (some u) => {u}
  | _ => ∅

/-- All users named anywhere in a call sequence. -/
def traceUsers (ops : List RegOp) : Finset UserId :=
  ops.foldr (fun op acc => opUsers op ∪ acc) ∅

/-- The topic of a Register/Deregister call. -/
def opTopic : RegOp → Topic
  | RegOp.reg _ t _ => t
  | RegOp.dereg _ t _ => t

/-- All topics named anywhere in a call sequence. -/
def traceTopics (ops : List RegOp) : Finset Topic :=
  (ops.map opTopic).toFinset

/-- The spec-side set of distinct users that currently have at least one
active (user-scoped) subscription after a call sequence. -/
def specUsers (ops : List RegOp) : Finset UserId :=
  (traceUsers ops).filter (fun u => ∃ t ∈ traceTopics ops, specUserSubs ops u t ≠ ∅)

/-- The spec's subset-view invariant: every `{Connection, Topic, UserID}`
entry implies the corresponding `{Connection, Topic}` entry. -/
def subsetInv (s : Mgr) : Prop :=
  ∀ (u : UserId) (t : Topic) (c : Conn), c ∈ userL s u t → c ∈ activeL s t

/-- Every connection is held by at most one user per topic (true under the
endpoints' calling convention, where a websocket object registers once). -/
def uniqueOwner (s : Mgr) : Prop :=
  ∀ (c : Conn) (t : Topic) (u1 u2 : UserId),
    c ∈ userL s u1 t → c ∈ userL s u2 t → u1 = u2

/-- Structural well-formedness of the user map maintained by the code's
cleanup: no user is mapped to an empty dict and no topic entry holds an
empty set. -/
def usersWF (s : Mgr) : Prop :=
  (s.users.map Prod.fst).Nodup ∧
    ∀ p ∈ s.users, p.2 ≠ [] ∧ ∀ q ∈ p.2, q.2 ≠ ∅

/-- The identifiers of the tasks created for topic `t` that are not yet done
(the potentially running producer loops for `t`). -/
def liveTaskIds (s : Mgr) (t : Topic) : List Nat :=
  (s.taskHeap.filter
    (fun p => decide (p.2.topic = t ∧ p.2.status ≠ TaskSt.finished))).map Prod.fst

/-- A concrete random source, used to instantiate the environment parameters
of theorems at concrete inputs. -/
def sampleRng : Rng :=
  ⟨fun a _ => a, fun l => l.headD "", fun a _ => a⟩

/-- Inductive invariant tying the task dict to the task heap: identifiers are
below the fresh counter, identifiers are unique, every not-yet-done task is
the one its topic's dict entry stores, and dict entries point into the
heap. -/
def TasksInv (s : Mgr) : Prop :=
  (∀ p ∈ s.taskHeap, p.1 < s.nextTask) ∧
    (s.taskHeap.map Prod.fst).Nodup ∧
    (∀ p ∈ s.taskHeap, p.2.status ≠ TaskSt.finished →
      alookup s.tasks p.2.topic = some p.1) ∧
    (∀ (t : Topic) (tid : Nat), alookup s.tasks t = some tid →
      (alookup s.taskHeap tid).isSome)

/-! ### Association-list lemmas -/

@[simp]
theorem alookup_nil {α β : Type} [DecidableEq α] (k : α) :
    alookup ([] : List (α × β)) k = none := rfl

theorem alookup_ainsert_self {α β : Type} [DecidableEq α] (d : List (α × β))
    (k : α) (v : β) : alookup (ainsert d k v) k = some v := by
  induction d with
  | nil => simp [ainsert, alookup]
  | cons p rest ih =>
      obtain ⟨a, b⟩ := p
      by_cases h : a = k
      · simp [ainsert, h, alookup]
      · simp [ainsert, h, alookup, ih]

theorem alookup_ainsert_ne {α β : Type} [DecidableEq α] (d : List (α × β))
    {k k' : α} (v : β) (h : k' ≠ k) :
    alookup (ainsert d k v) k' = alookup d k' := by
  induction d with
  | nil => simp [ainsert, alookup, Ne.symm h]
  | cons p rest ih =>
      obtain ⟨a, b⟩ := p
      by_cases ha : a = k
      · subst ha
        simp [ainsert, alookup, Ne.symm h]
      · simp [ainsert, if_neg ha, alookup, ih]

theorem alookup_aerase_self {α β : Type} [DecidableEq α] (d : List (α × β))
    (k : α) : alookup (aerase d k) k = none := by
  induction d with
  | nil => simp [aerase, alookup]
  | cons p rest ih =>
      obtain ⟨a, b⟩ := p
      by_cases h : a = k
      · simpa [aerase, h] using ih
      · simp [aerase, h, alookup, ih]

theorem alookup_aerase_ne {α β : Type} [DecidableEq α] (d : List (α × β))
    {k k' : α} (h : k' ≠ k) : alookup (aerase d k) k' = alookup d k' := by
  induction d with
  | nil => simp [aerase]
  | cons p rest ih =>
      obtain ⟨a, b⟩ := p
      by_cases ha : a = k
      · subst ha
        simp [aerase, alookup, Ne.symm h, ih]
      · simp [aerase, alookup, ha, ih]

theorem ainsert_of_alookup_eq {α β : Type} [DecidableEq α] (d : List (α × β))
    {k : α} {v : β} (h : alookup d k = some v) : ainsert d k v = d := by
  induction d with
  | nil => simp [alookup] at h
  | cons p rest ih =>
      obtain ⟨a, b⟩ := p
      by_cases ha : a = k
      · subst ha
        simp [alookup] at h
        simp [ainsert, h]
      · simp [alookup, ha] at h
        simp [ainsert, ha, ih h]

theorem mem_of_alookup_eq {α β : Type} [DecidableEq α] (d : List (α × β))
    {k : α} {v : β} (h : alookup d k = some v) : (k, v) ∈ d := by
  induction d with
  | nil => simp [alookup] at h
  | cons p rest ih =>
      obtain ⟨a, b⟩ := p
      by_cases ha : a = k
      · subst ha
        simp [alookup] at h
        simp [h]
      · simp [alookup, ha] at h
        simp [ih h]

theorem alookup_isSome_iff {α β : Type} [DecidableEq α] (d : List (α × β))
    (k : α) : (alookup d k).isSome ↔ k ∈ d.map Prod.fst := by
  induction d with
  | nil => simp [alookup]
  | cons p rest ih =>
      obtain ⟨a, b⟩ := p
      by_cases ha : a = k
      · simp [alookup, ha]
      · simp only [alookup, if_neg ha, List.map_cons, List.mem_cons, ih]
        constructor
        · exact fun h => Or.inr h
        · rintro (h | h)
          · exact absurd h.symm ha
          · exact h

theorem mem_ainsert {α β : Type} [DecidableEq α] {d : List (α × β)}
    {k : α} {v : β} {p : α × β} (h : p ∈ ainsert d k v) :
    p = (k, v) ∨ p ∈ d := by
  induction d with
  | nil => simpa [ainsert] using h
  | cons q rest ih =>
      obtain ⟨a, b⟩ := q
      by_cases ha : a = k
      · simp [ainsert, ha] at h
        rcases h with h | h
        · exact Or.inl h
        · exact Or.inr (List.mem_cons_of_mem _ h)
      · simp [ainsert, ha] at h
        rcases h with h | h
        · exact Or.inr (by simp [h])
        · rcases ih h with h' | h'
          · exact Or.inl h'
          · exact Or.inr (List.mem_cons_of_mem _ h')

theorem keys_ainsert_of_isSome {α β : Type} [DecidableEq α] (d : List (α × β))
    {k : α} (v : β) (h : (alookup d k).isSome) :
    (ainsert d k v).map Prod.fst = d.map Prod.fst := by
  induction d with
  | nil => simp [alookup] at h
  | cons p rest ih =>
      obtain ⟨a, b⟩ := p
      by_cases ha : a = k
      · simp [ainsert, ha]
      · simp [alookup, ha] at h
        simp [ainsert, ha, ih h]

theorem ainsert_of_alookup_none {α β : Type} [DecidableEq α] (d : List (α × β))
    {k : α} (v : β) (h : alookup d k = none) : ainsert d k v = d ++ [(k, v)] := by
  induction d with
  | nil => simp [ainsert]
  | cons p rest ih =>
      obtain ⟨a, b⟩ := p
      by_cases ha : a = k
      · simp [alookup, ha] at h
      · simp [alookup, ha] at h
        simp [ainsert, ha, ih h]

theorem keys_nodup_ainsert {α β : Type} [DecidableEq α] (d : List (α × β))
    (k : α) (v : β) (h : (d.map Prod.fst).Nodup) :
    ((ainsert d k v).map Prod.fst).Nodup := by
  rcases ho : alookup d k with _ | w
  · rw [ainsert_of_alookup_none d v ho]
    simp only [List.map_append, List.map_cons, List.map_nil]
    refine List.Nodup.append h (List.nodup_singleton _) ?_
    intro a ha hb
    simp only [List.mem_singleton] at hb
    subst hb
    have h2 := (alookup_isSome_iff d a).2 ha
    rw [ho] at h2
    simp at h2
  · rw [keys_ainsert_of_isSome d v (by simp [ho])]
    exact h

theorem mem_aerase {α β : Type} [DecidableEq α] {d : List (α × β)} {k : α}
    {p : α × β} : p ∈ aerase d k ↔ p ∈ d ∧ p.1 ≠ k := by
  induction d with
  | nil => simp [aerase]
  | cons q rest ih =>
      obtain ⟨a, b⟩ := q
      by_cases h : a = k
      · subst h
        have e : aerase ((a, b) :: rest) a = aerase rest a := by
          simp [aerase]
        rw [e, ih]
        simp only [List.mem_cons]
        constructor
        · rintro ⟨hp, hne⟩
          exact ⟨Or.inr hp, hne⟩
        · rintro ⟨hp | hp, hne⟩
          · cases hp
            simp at hne
          · exact ⟨hp, hne⟩
      · have e : aerase ((a, b) :: rest) k = (a, b) :: aerase rest k := by
          simp [aerase, h]
        rw [e]
        simp only [List.mem_cons, ih]
        constructor
        · rintro (hp | ⟨hp, hne⟩)
          · exact ⟨Or.inl hp, by simp [hp, h]⟩
          · exact ⟨Or.inr hp, hne⟩
        · rintro ⟨hp | hp, hne⟩
          · exact Or.inl hp
          · exact Or.inr ⟨hp, hne⟩

theorem aerase_sublist {α β : Type} [DecidableEq α] (d : List (α × β))
    (k : α) : (aerase d k).Sublist d := by
  induction d with
  | nil => simp [aerase]
  | cons q rest ih =>
      obtain ⟨a, b⟩ := q
      by_cases h : a = k
      · simp only [aerase, if_pos h]
        exact ih.cons _
      · simp only [aerase, if_neg h]
        exact ih.cons₂ _

theorem keys_nodup_aerase {α β : Type} [DecidableEq α] (d : List (α × β))
    (k : α) (h : (d.map Prod.fst).Nodup) :
    ((aerase d k).map Prod.fst).Nodup :=
  (((aerase_sublist d k).map Prod.fst)).nodup h

theorem ainsert_ne_nil {α β : Type} [DecidableEq α] (d : List (α × β))
    (k : α) (v : β) : ainsert d k v ≠ [] := by
  cases d with
  | nil => simp [ainsert]
  | cons p rest =>
      obtain ⟨a, b⟩ := p
      by_cases ha : a = k <;> simp [ainsert, ha]

theorem alookup_eq_none_of_aerase_nil {α β : Type} [DecidableEq α]
    {d : List (α × β)} {k k' : α} (h : aerase d k = []) (hne : k' ≠ k) :
    alookup d k' = none := by
  induction d with
  | nil => rfl
  | cons p rest ih =>
      obtain ⟨a, b⟩ := p
      by_cases ha : a = k
      · subst ha
        simp only [aerase, if_pos rfl] at h
        simp [alookup, Ne.symm hne, ih h]
      · simp [aerase, ha] at h

/-! ### Which fields each operation piece touches -/

theorem connectActive_users (s : Mgr) (ws : Conn) (t : Topic) :
    (connectActive s ws t).users = s.users := by
  unfold connectActive; split <;> rfl

theorem connectActive_tasks (s : Mgr) (ws : Conn) (t : Topic) :
    (connectActive s ws t).tasks = s.tasks := by
  unfold connectActive; split <;> rfl

theorem connectActive_taskHeap (s : Mgr) (ws : Conn) (t : Topic) :
    (connectActive s ws t).taskHeap = s.taskHeap := by
  unfold connectActive; split <;> rfl

theorem connectActive_nextTask (s : Mgr) (ws : Conn) (t : Topic) :
    (connectActive s ws t).nextTask = s.nextTask := by
  unfold connectActive; split <;> rfl

theorem connectUsers_active (s : Mgr) (ws : Conn) (t : Topic)
    (u : Option UserId) : (connectUsers s ws t u).active = s.active := by
  cases u with
  | none => rfl
  | some uid => by_cases h : uid = "" <;> simp [connectUsers, h]

theorem connectUsers_tasks (s : Mgr) (ws : Conn) (t : Topic)
    (u : Option UserId) : (connectUsers s ws t u).tasks = s.tasks := by
  cases u with
  | none => rfl
  | some uid => by_cases h : uid = "" <;> simp [connectUsers, h]

theorem connectUsers_taskHeap (s : Mgr) (ws : Conn) (t : Topic)
    (u : Option UserId) : (connectUsers s ws t u).taskHeap = s.taskHeap := by
  cases u with
  | none => rfl
  | some uid => by_cases h : uid = "" <;> simp [connectUsers, h]

theorem connectUsers_nextTask (s : Mgr) (ws : Conn) (t : Topic)
    (u : Option UserId) : (connectUsers s ws t u).nextTask = s.nextTask := by
  cases u with
  | none => rfl
  | some uid => by_cases h : uid = "" <;> simp [connectUsers, h]

theorem connectTask_active (s : Mgr) (t : Topic) :
    (connectTask s t).active = s.active := by
  unfold connectTask
  split
  · rfl
  · split <;> rfl

theorem connectTask_users (s : Mgr) (t : Topic) :
    (connectTask s t).users = s.users := by
  unfold connectTask
  split
  · rfl
  · split <;> rfl

theorem cancelTask_active (s : Mgr) (tid : Nat) :
    (cancelTask s tid).active = s.active := by
  unfold cancelTask
  split
  · split <;> rfl
  · rfl

theorem cancelTask_users (s : Mgr) (tid : Nat) :
    (cancelTask s tid).users = s.users := by
  unfold cancelTask
  split
  · split <;> rfl
  · rfl

theorem cancelTask_tasks (s : Mgr) (tid : Nat) :
    (cancelTask s tid).tasks = s.tasks := by
  unfold cancelTask
  split
  · split <;> rfl
  · rfl

theorem cancelTask_nextTask (s : Mgr) (tid : Nat) :
    (cancelTask s tid).nextTask = s.nextTask := by
  unfold cancelTask
  split
  · split <;> rfl
  · rfl

theorem markDone_active (s : Mgr) (tid : Nat) :
    (markDone s tid).active = s.active := by
  unfold markDone; split <;> rfl

theorem markDone_users (s : Mgr) (tid : Nat) :
    (markDone s tid).users = s.users := by
  unfold markDone; split <;> rfl

theorem markDone_tasks (s : Mgr) (tid : Nat) :
    (markDone s tid).tasks = s.tasks := by
  unfold markDone; split <;> rfl

theorem disconnectActive_users (s : Mgr) (ws : Conn) (t : Topic) :
    (disconnectActive s ws t).users = s.users := by
  unfold disconnectActive
  split
  · rfl
  · dsimp only
    split
    · split
      · split
        · rfl
        · rw [cancelTask_users]
      · rfl
    · rfl

theorem disconnectActive_tasks (s : Mgr) (ws : Conn) (t : Topic) :
    (disconnectActive s ws t).tasks = s.tasks := by
  unfold disconnectActive
  split
  · rfl
  · dsimp only
    split
    · split
      · split
        · rfl
        · rw [cancelTask_tasks]
      · rfl
    · rfl

theorem disconnectActive_nextTask (s : Mgr) (ws : Conn) (t : Topic) :
    (disconnectActive s ws t).nextTask = s.nextTask := by
  unfold disconnectActive
  split
  · rfl
  · dsimp only
    split
    · split
      · split
        · rfl
        · rw [cancelTask_nextTask]
      · rfl
    · rfl

theorem disconnectActive_active (s : Mgr) (ws : Conn) (t : Topic) :
    (disconnectActive s ws t).active =
      (match alookup s.active t with
       | none => s.active
       | some conns => ainsert s.active t (conns.erase ws)) := by
  unfold disconnectActive
  split
  · rfl
  · dsimp only
    split
    · split
      · split
        · rfl
        · rw [cancelTask_active]
      · rfl
    · rfl

theorem disconnectUsers_active (s : Mgr) (ws : Conn) (t : Topic)
    (u : Option UserId) : (disconnectUsers s ws t u).active = s.active := by
  unfold disconnectUsers
  split
  · rfl
  · split
    · rfl
    · split
      · rfl
      · dsimp only
        split <;> rfl

theorem disconnectUsers_tasks (s : Mgr) (ws : Conn) (t : Topic)
    (u : Option UserId) : (disconnectUsers s ws t u).tasks = s.tasks := by
  unfold disconnectUsers
  split
  · rfl
  · split
    · rfl
    · split
      · rfl
      · dsimp only
        split <;> rfl

theorem disconnectUsers_taskHeap (s : Mgr) (ws : Conn) (t : Topic)
    (u : Option UserId) : (disconnectUsers s ws t u).taskHeap = s.taskHeap := by
  unfold disconnectUsers
  split
  · rfl
  · split
    · rfl
    · split
      · rfl
      · dsimp only
        split <;> rfl

theorem disconnectUsers_nextTask (s : Mgr) (ws : Conn) (t : Topic)
    (u : Option UserId) : (disconnectUsers s ws t u).nextTask = s.nextTask := by
  unfold disconnectUsers
  split
  · rfl
  · split
    · rfl
    · split
      · rfl
      · dsimp only
        split <;> rfl

theorem connect_active_eq (s : Mgr) (ws : Conn) (t : Topic)
    (u : Option UserId) :
    (connect s ws t u).active = (connectActive s ws t).active := by
  unfold connect
  rw [connectTask_active, connectUsers_active]

theorem connect_users_eq (s : Mgr) (ws : Conn) (t : Topic) (u : Option UserId) :
    (connect s ws t u).users =
      (connectUsers (connectActive s ws t) ws t u).users := by
  unfold connect
  rw [connectTask_users]

theorem disconnect_active_eq (s : Mgr) (ws : Conn) (t : Topic)
    (u : Option UserId) :
    (disconnect s ws t u).active = (disconnectActive s ws t).active := by
  unfold disconnect
  rw [disconnectUsers_active]

theorem disconnect_users_eq (s : Mgr) (ws : Conn) (t : Topic)
    (u : Option UserId) :
    (disconnect s ws t u).users =
      (disconnectUsers (disconnectActive s ws t) ws t u).users := rfl

theorem disconnect_tasks_eq (s : Mgr) (ws : Conn) (t : Topic)
    (u : Option UserId) :
    (disconnect s ws t u).tasks = (disconnectActive s ws t).tasks := by
  unfold disconnect
  rw [disconnectUsers_tasks]

theorem disconnect_taskHeap_eq (s : Mgr) (ws : Conn) (t : Topic)
    (u : Option UserId) :
    (disconnect s ws t u).taskHeap = (disconnectActive s ws t).taskHeap := by
  unfold disconnect
  rw [disconnectUsers_taskHeap]

/-! ### How the operations act on the membership views -/

theorem activeL_eq_of_users (s s' : Mgr) (h : s'.active = s.active) (t : Topic) :
    activeL s' t = activeL s t := by
  simp [activeL, h]

theorem userL_eq_of_users (s s' : Mgr) (h : s'.users = s.users) (u : UserId)
    (t : Topic) : userL s' u t = userL s u t := by
  simp [userL, h]

theorem activeL_connectActive (s : Mgr) (ws : Conn) (t t' : Topic) :
    activeL (connectActive s ws t) t' =
      if t' = t then insert ws (activeL s t) else activeL s t' := by
  rcases h : alookup s.active t with _ | conns <;> by_cases ht : t' = t
  · subst ht
    simp [connectActive, h, activeL, alookup_ainsert_self]
  · simp [connectActive, h, activeL, alookup_ainsert_ne _ _ ht, ht]
  · subst ht
    simp [connectActive, h, activeL, alookup_ainsert_self]
  · simp [connectActive, h, activeL, alookup_ainsert_ne _ _ ht, ht]

theorem activeL_connect (s : Mgr) (ws : Conn) (t : Topic) (u : Option UserId)
    (t' : Topic) :
    activeL (connect s ws t u) t' =
      if t' = t then insert ws (activeL s t) else activeL s t' := by
  have h1 : activeL (connect s ws t u) t' = activeL (connectActive s ws t) t' :=
    activeL_eq_of_users (connectActive s ws t) (connect s ws t u)
      (connect_active_eq s ws t u) t'
  rw [h1, activeL_connectActive]

theorem activeL_disconnectActive (s : Mgr) (ws : Conn) (t t' : Topic) :
    activeL (disconnectActive s ws t) t' =
      if t' = t then (activeL s t).erase ws else activeL s t' := by
  unfold activeL
  rw [disconnectActive_active]
  rcases h : alookup s.active t with _ | conns <;> by_cases ht : t' = t
  · subst ht
    simp [h]
  · simp [h, ht]
  · subst ht
    simp [h, alookup_ainsert_self]
  · simp [h, alookup_ainsert_ne _ _ ht, ht]

theorem activeL_disconnect (s : Mgr) (ws : Conn) (t : Topic) (u : Option UserId)
    (t' : Topic) :
    activeL (disconnect s ws t u) t' =
      if t' = t then (activeL s t).erase ws else activeL s t' := by
  have h1 : activeL (disconnect s ws t u) t' =
      activeL (disconnectActive s ws t) t' :=
    activeL_eq_of_users (disconnectActive s ws t) (disconnect s ws t u)
      (disconnect_active_eq s ws t u) t'
  rw [h1, activeL_disconnectActive]

theorem userL_connectUsers_none (s : Mgr) (ws : Conn) (t : Topic) (u' : UserId)
    (t' : Topic) : userL (connectUsers s ws t none) u' t' = userL s u' t' := rfl

theorem userL_connectUsers_blank (s : Mgr) (ws : Conn) (t : Topic) (u' : UserId)
    (t' : Topic) : userL (connectUsers s ws t (some "")) u' t' = userL s u' t' := by
  simp [connectUsers]

theorem userL_connectUsers_some (s : Mgr) (ws : Conn) (t : Topic) (uid : UserId)
    (hne : uid ≠ "") (u' : UserId) (t' : Topic) :
    userL (connectUsers s ws t (some uid)) u' t' =
      if u' = uid ∧ t' = t then insert ws (userL s uid t) else userL s u' t' := by
  by_cases hu : u' = uid
  · subst hu
    by_cases ht : t' = t
    · subst ht
      simp [connectUsers, hne, userL, alookup_ainsert_self]
    · simp [connectUsers, hne, userL, alookup_ainsert_self,
        alookup_ainsert_ne _ _ ht, ht]
  · simp [connectUsers, hne, userL, alookup_ainsert_ne _ _ hu, hu]

theorem userL_connect_none (s : Mgr) (ws : Conn) (t : Topic) (u' : UserId)
    (t' : Topic) : userL (connect s ws t none) u' t' = userL s u' t' := by
  have h1 : userL (connect s ws t none) u' t' =
      userL (connectUsers (connectActive s ws t) ws t none) u' t' :=
    userL_eq_of_users _ _ (connect_users_eq s ws t none) u' t'
  rw [h1, userL_connectUsers_none,
    userL_eq_of_users s _ (connectActive_users s ws t) u' t']

theorem userL_connect_blank (s : Mgr) (ws : Conn) (t : Topic) (u' : UserId)
    (t' : Topic) : userL (connect s ws t (some "")) u' t' = userL s u' t' := by
  have h1 : userL (connect s ws t (some "")) u' t' =
      userL (connectUsers (connectActive s ws t) ws t (some "")) u' t' :=
    userL_eq_of_users _ _ (connect_users_eq s ws t (some "")) u' t'
  rw [h1, userL_connectUsers_blank,
    userL_eq_of_users s _ (connectActive_users s ws t) u' t']

theorem userL_connect_some (s : Mgr) (ws : Conn) (t : Topic) (uid : UserId)
    (hne : uid ≠ "") (u' : UserId) (t' : Topic) :
    userL (connect s ws t (some uid)) u' t' =
      if u' = uid ∧ t' = t then insert ws (userL s uid t) else userL s u' t' := by
  have h1 : userL (connect s ws t (some uid)) u' t' =
      userL (connectUsers (connectActive s ws t) ws t (some uid)) u' t' :=
    userL_eq_of_users _ _ (connect_users_eq s ws t (some uid)) u' t'
  rw [h1, userL_connectUsers_some _ _ _ _ hne,
    userL_eq_of_users s _ (connectActive_users s ws t) uid t,
    userL_eq_of_users s _ (connectActive_users s ws t) u' t']

theorem userL_disconnectUsers_none (s : Mgr) (ws : Conn) (t : Topic)
    (u' : UserId) (t' : Topic) :
    userL (disconnectUsers s ws t none) u' t' = userL s u' t' := rfl

theorem userL_disconnectUsers_blank (s : Mgr) (ws : Conn) (t : Topic)
    (u' : UserId) (t' : Topic) :
    userL (disconnectUsers s ws t (some "")) u' t' = userL s u' t' := by
  simp [disconnectUsers]

theorem userL_disconnectUsers_some (s : Mgr) (ws : Conn) (t : Topic)
    (uid : UserId) (hne : uid ≠ "") (u' : UserId) (t' : Topic) :
    userL (disconnectUsers s ws t (some uid)) u' t' =
      if u' = uid ∧ t' = t then (userL s uid t).erase ws else userL s u' t' := by
  rcases hu : alookup s.users uid with _ | udict
  · have e : disconnectUsers s ws t (some uid) = s := by
      unfold disconnectUsers
      simp [hne, hu]
    rw [e]
    by_cases h : u' = uid ∧ t' = t
    · obtain ⟨rfl, rfl⟩ := h
      simp [userL, hu]
    · simp [h]
  · rcases ht : alookup udict t with _ | tset
    · by_cases hq : udict = []
      · subst hq
        have e : disconnectUsers s ws t (some uid) =
            { s with users := aerase s.users uid } := by
          unfold disconnectUsers
          simp [hne, hu, ht]
        rw [e]
        by_cases h1 : u' = uid
        · subst h1
          by_cases h2 : t' = t
          · subst h2
            simp [userL, alookup_aerase_self, hu]
          · simp [userL, alookup_aerase_self, hu, h2]
        · simp [userL, alookup_aerase_ne _ h1, h1]
      · have e : disconnectUsers s ws t (some uid) = s := by
          unfold disconnectUsers
          simp [hne, hu, ht, hq, ainsert_of_alookup_eq _ hu]
        rw [e]
        by_cases h : u' = uid ∧ t' = t
        · obtain ⟨rfl, rfl⟩ := h
          simp [userL, hu, ht]
        · simp [h]
    · by_cases he : tset.erase ws = ∅
      · by_cases hq : aerase udict t = []
        · have e : disconnectUsers s ws t (some uid) =
              { s with users := aerase s.users uid } := by
            unfold disconnectUsers
            simp [hne, hu, ht, he, hq]
          rw [e]
          by_cases h1 : u' = uid
          · subst h1
            by_cases h2 : t' = t
            · subst h2
              simp [userL, alookup_aerase_self, hu, ht, he]
            · simp [userL, alookup_aerase_self, hu,
                alookup_eq_none_of_aerase_nil hq h2, h2]
          · simp [userL, alookup_aerase_ne _ h1, h1]
        · have e : disconnectUsers s ws t (some uid) =
              { s with users := ainsert s.users uid (aerase udict t) } := by
            unfold disconnectUsers
            simp [hne, hu, ht, he, hq]
          rw [e]
          by_cases h1 : u' = uid
          · subst h1
            by_cases h2 : t' = t
            · subst h2
              simp [userL, alookup_ainsert_self, alookup_aerase_self, hu, ht, he]
            · simp [userL, alookup_ainsert_self, alookup_aerase_ne _ h2, hu, h2]
          · simp [userL, alookup_ainsert_ne _ _ h1, h1]
      · have e : disconnectUsers s ws t (some uid) =
            { s with users :=
              ainsert s.users uid (ainsert udict t (tset.erase ws)) } := by
          unfold disconnectUsers
          simp [hne, hu, ht, he, ainsert_ne_nil]
        rw [e]
        by_cases h1 : u' = uid
        · subst h1
          by_cases h2 : t' = t
          · subst h2
            simp [userL, alookup_ainsert_self, hu, ht]
          · simp [userL, alookup_ainsert_self, alookup_ainsert_ne _ _ h2, hu, h2]
        · simp [userL, alookup_ainsert_ne _ _ h1, h1]

theorem userL_disconnect_none (s : Mgr) (ws : Conn) (t : Topic) (u' : UserId)
    (t' : Topic) : userL (disconnect s ws t none) u' t' = userL s u' t' := by
  have h1 : userL (disconnect s ws t none) u' t' =
      userL (disconnectUsers (disconnectActive s ws t) ws t none) u' t' := rfl
  rw [h1, userL_disconnectUsers_none,
    userL_eq_of_users s _ (disconnectActive_users s ws t) u' t']

theorem userL_disconnect_blank (s : Mgr) (ws : Conn) (t : Topic) (u' : UserId)
    (t' : Topic) : userL (disconnect s ws t (some "")) u' t' = userL s u' t' := by
  have h1 : userL (disconnect s ws t (some "")) u' t' =
      userL (disconnectUsers (disconnectActive s ws t) ws t (some "")) u' t' := rfl
  rw [h1, userL_disconnectUsers_blank,
    userL_eq_of_users s _ (disconnectActive_users s ws t) u' t']

theorem userL_disconnect_some (s : Mgr) (ws : Conn) (t : Topic) (uid : UserId)
    (hne : uid ≠ "") (u' : UserId) (t' : Topic) :
    userL (disconnect s ws t (some uid)) u' t' =
      if u' = uid ∧ t' = t then (userL s uid t).erase ws else userL s u' t' := by
  have h1 : userL (disconnect s ws t (some uid)) u' t' =
      userL (disconnectUsers (disconnectActive s ws t) ws t (some uid)) u' t' := rfl
  rw [h1, userL_disconnectUsers_some _ _ _ _ hne,
    userL_eq_of_users s _ (disconnectActive_users s ws t) uid t,
    userL_eq_of_users s _ (disconnectActive_users s ws t) u' t']

/-! ### Broadcast snapshots and eviction folds -/

theorem mem_snapshotList (conns : Finset Conn) (c : Conn) :
    c ∈ snapshotList conns ↔ c ∈ conns := by
  unfold snapshotList
  simp only [List.mem_filter, List.mem_range, decide_eq_true_eq]
  constructor
  · exact fun h => h.2
  · intro hc
    refine ⟨?_, hc⟩
    have h2 : id c ≤ conns.sup id := Finset.le_sup hc
    exact Nat.lt_succ_of_le h2

theorem snapshotList_nodup (conns : Finset Conn) : (snapshotList conns).Nodup :=
  (List.nodup_range _).filter _

theorem mem_activeL_foldl_disconnect (L : List Conn) (s : Mgr) (t : Topic)
    (uid : Option UserId) (c : Conn) :
    c ∈ activeL (L.foldl (fun st ws => disconnect st ws t uid) s) t ↔
      c ∈ activeL s t ∧ c ∉ L := by
  induction L generalizing s with
  | nil => simp
  | cons a rest ih =>
      rw [List.foldl_cons, ih, activeL_disconnect, if_pos rfl]
      simp only [Finset.mem_erase, List.mem_cons]
      constructor
      · rintro ⟨⟨hne, hc⟩, hrest⟩
        exact ⟨hc, by tauto⟩
      · rintro ⟨hc, hni⟩
        exact ⟨⟨fun h => hni (Or.inl h), hc⟩, fun h => hni (Or.inr h)⟩

theorem userL_foldl_disconnect_none (L : List Conn) (s : Mgr) (t : Topic)
    (u : UserId) (t' : Topic) :
    userL (L.foldl (fun st ws => disconnect st ws t none) s) u t' =
      userL s u t' := by
  induction L generalizing s with
  | nil => rfl
  | cons a rest ih =>
      rw [List.foldl_cons, ih, userL_disconnect_none]

/-! ### The subset-view invariant -/

theorem userL_disconnect_subset (s : Mgr) (ws : Conn) (t : Topic)
    (uid : Option UserId) (u' : UserId) (t' : Topic) :
    userL (disconnect s ws t uid) u' t' ⊆ userL s u' t' := by
  rcases uid with _ | u0
  · rw [userL_disconnect_none]
  · by_cases hb : u0 = ""
    · subst hb
      rw [userL_disconnect_blank]
    · rw [userL_disconnect_some _ _ _ _ hb]
      by_cases h : u' = u0 ∧ t' = t
      · obtain ⟨rfl, rfl⟩ := h
        rw [if_pos ⟨rfl, rfl⟩]
        exact Finset.erase_subset _ _
      · rw [if_neg h]

theorem subsetInv_connect (s : Mgr) (ws : Conn) (t : Topic) (u : Option UserId)
    (hP : subsetInv s) : subsetInv (connect s ws t u) := by
  intro u' t' c hc
  rw [activeL_connect]
  have hmem : c ∈ userL s u' t' →
      c ∈ (if t' = t then insert ws (activeL s t) else activeL s t') := by
    intro h
    by_cases ht : t' = t
    · subst ht
      rw [if_pos rfl]
      exact Finset.mem_insert.mpr (Or.inr (hP u' t' c h))
    · rw [if_neg ht]
      exact hP u' t' c h
  rcases u with _ | u0
  · rw [userL_connect_none] at hc
    exact hmem hc
  · by_cases hb : u0 = ""
    · subst hb
      rw [userL_connect_blank] at hc
      exact hmem hc
    · rw [userL_connect_some _ _ _ _ hb] at hc
      by_cases h : u' = u0 ∧ t' = t
      · obtain ⟨rfl, rfl⟩ := h
        rw [if_pos ⟨rfl, rfl⟩] at hc
        rw [if_pos rfl]
        rcases Finset.mem_insert.mp hc with h1 | h1
        · exact Finset.mem_insert.mpr (Or.inl h1)
        · exact Finset.mem_insert.mpr (Or.inr (hP _ _ c h1))
      · rw [if_neg h] at hc
        exact hmem hc

theorem subsetInv_disconnect (s : Mgr) (ws : Conn) (t : Topic)
    (uid : Option UserId) (hP : subsetInv s)
    (hH : ∀ u', ws ∈ userL s u' t → uid = some u' ∧ u' ≠ "") :
    subsetInv (disconnect s ws t uid) := by
  intro u' t' c hc
  have hc' : c ∈ userL s u' t' := userL_disconnect_subset s ws t uid u' t' hc
  rw [activeL_disconnect]
  by_cases ht : t' = t
  · subst ht
    rw [if_pos rfl]
    refine Finset.mem_erase.mpr ⟨?_, hP u' t' c hc'⟩
    intro hcw
    subst hcw
    obtain ⟨h1, h2⟩ := hH u' hc'
    subst h1
    rw [userL_disconnect_some _ _ _ _ h2, if_pos ⟨rfl, rfl⟩] at hc
    exact absurd rfl (Finset.mem_erase.mp hc).1
  · rw [if_neg ht]
    exact hP u' t' c hc'

theorem uniqueOwner_disconnect (s : Mgr) (ws : Conn) (t : Topic)
    (uid : Option UserId) (hU : uniqueOwner s) :
    uniqueOwner (disconnect s ws t uid) := by
  intro c t0 u1 u2 h1 h2
  exact hU c t0 u1 u2 (userL_disconnect_subset _ _ _ _ _ _ h1)
    (userL_disconnect_subset _ _ _ _ _ _ h2)

theorem subsetInv_foldl_disconnect_user (L : List Conn) (t : Topic)
    (u : UserId) (hu : u ≠ "") :
    ∀ s : Mgr, subsetInv s → uniqueOwner s →
      (∀ c ∈ L, c ∈ userL s u t) → L.Nodup →
      subsetInv (L.foldl (fun st ws => disconnect st ws t (some u)) s) := by
  induction L with
  | nil =>
      intro s hP _ _ _
      exact hP
  | cons a rest ih =>
      intro s hP hU hL hnd
      rw [List.foldl_cons]
      have ha : a ∈ userL s u t := hL a (by simp)
      have hH : ∀ u', a ∈ userL s u' t → (some u : Option UserId) = some u' ∧ u' ≠ "" := by
        intro u' h'
        have he := hU a t u u' ha h'
        subst he
        exact ⟨rfl, hu⟩
      refine ih (disconnect s a t (some u))
        (subsetInv_disconnect s a t (some u) hP hH)
        (uniqueOwner_disconnect s a t (some u) hU) ?_
        (List.nodup_cons.mp hnd).2
      intro c hc
      have hcs : c ∈ userL s u t := hL c (by simp [hc])
      rw [userL_disconnect_some _ _ _ _ hu, if_pos ⟨rfl, rfl⟩]
      refine Finset.mem_erase.mpr ⟨?_, hcs⟩
      intro hca
      subst hca
      exact (List.nodup_cons.mp hnd).1 hc

/-! ### Structural well-formedness of the user map -/

theorem usersWF_eq_of_users (s s' : Mgr) (h : s'.users = s.users)
    (hwf : usersWF s) : usersWF s' := by
  unfold usersWF
  rw [h]
  exact hwf

theorem usersWF_connectUsers (s : Mgr) (ws : Conn) (t : Topic)
    (u : Option UserId) (h : usersWF s) : usersWF (connectUsers s ws t u) := by
  rcases u with _ | uid
  · exact h
  · by_cases hb : uid = ""
    · subst hb
      have e : connectUsers s ws t (some "") = s := by
        unfold connectUsers
        simp
      rw [e]
      exact h
    · have e : connectUsers s ws t (some uid) =
          { s with users := (ainsert s.users uid
            (ainsert ((alookup s.users uid).getD []) t
              (insert ws ((alookup ((alookup s.users uid).getD []) t).getD ∅)))) } := by
        unfold connectUsers
        simp [hb]
      rw [e]
      refine ⟨keys_nodup_ainsert _ _ _ h.1, ?_⟩
      intro p hp
      rcases mem_ainsert hp with rfl | hp1
      · refine ⟨ainsert_ne_nil _ _ _, ?_⟩
        intro q hq
        rcases mem_ainsert hq with rfl | hq1
        · exact Finset.insert_ne_empty _ _
        · rcases hx : alookup s.users uid with _ | d
          · rw [hx] at hq1
            simp at hq1
          · rw [hx] at hq1
            simp only [Option.getD_some] at hq1
            exact (h.2 (uid, d) (mem_of_alookup_eq _ hx)).2 q hq1
      · exact h.2 p hp1

theorem usersWF_connect (s : Mgr) (ws : Conn) (t : Topic) (u : Option UserId)
    (h : usersWF s) : usersWF (connect s ws t u) := by
  refine usersWF_eq_of_users (connectUsers (connectActive s ws t) ws t u) _
    (connect_users_eq s ws t u) ?_
  refine usersWF_connectUsers _ ws t u ?_
  exact usersWF_eq_of_users s _ (connectActive_users s ws t) h

theorem usersWF_disconnectUsers (s : Mgr) (ws : Conn) (t : Topic)
    (u : Option UserId) (h : usersWF s) : usersWF (disconnectUsers s ws t u) := by
  rcases u with _ | uid
  · exact h
  · by_cases hb : uid = ""
    · subst hb
      have e : disconnectUsers s ws t (some "") = s := by
        unfold disconnectUsers
        simp
      rw [e]
      exact h
    · rcases hu : alookup s.users uid with _ | udict
      · have e : disconnectUsers s ws t (some uid) = s := by
          unfold disconnectUsers
          simp [hb, hu]
        rw [e]
        exact h
      · have hd := h.2 (uid, udict) (mem_of_alookup_eq _ hu)
        rcases ht : alookup udict t with _ | tset
        · have e : disconnectUsers s ws t (some uid) = s := by
            unfold disconnectUsers
            simp [hb, hu, ht, hd.1, ainsert_of_alookup_eq _ hu]
          rw [e]
          exact h
        · by_cases he : tset.erase ws = ∅
          · by_cases hq : aerase udict t = []
            · have e : disconnectUsers s ws t (some uid) =
                  { s with users := aerase s.users uid } := by
                unfold disconnectUsers
                simp [hb, hu, ht, he, hq]
              rw [e]
              refine ⟨keys_nodup_aerase _ _ h.1, ?_⟩
              intro p hp
              exact h.2 p (mem_aerase.mp hp).1
            · have e : disconnectUsers s ws t (some uid) =
                  { s with users := ainsert s.users uid (aerase udict t) } := by
                unfold disconnectUsers
                simp [hb, hu, ht, he, hq]
              rw [e]
              refine ⟨keys_nodup_ainsert _ _ _ h.1, ?_⟩
              intro p hp
              rcases mem_ainsert hp with rfl | hp1
              · refine ⟨hq, ?_⟩
                intro q hq1
                exact hd.2 q (mem_aerase.mp hq1).1
              · exact h.2 p hp1
          · have e : disconnectUsers s ws t (some uid) =
                { s with users :=
                  ainsert s.users uid (ainsert udict t (tset.erase ws)) } := by
              unfold disconnectUsers
              simp [hb, hu, ht, he, ainsert_ne_nil]
            rw [e]
            refine ⟨keys_nodup_ainsert _ _ _ h.1, ?_⟩
            intro p hp
            rcases mem_ainsert hp with rfl | hp1
            · refine ⟨ainsert_ne_nil _ _ _, ?_⟩
              intro q hq1
              rcases mem_ainsert hq1 with rfl | hq2
              · exact he
              · exact hd.2 q hq2
            · exact h.2 p hp1

theorem usersWF_disconnect (s : Mgr) (ws : Conn) (t : Topic) (u : Option UserId)
    (h : usersWF s) : usersWF (disconnect s ws t u) := by
  refine usersWF_disconnectUsers _ ws t u ?_
  exact usersWF_eq_of_users s _ (disconnectActive_users s ws t) h

theorem usersWF_foldl_disconnect (L : List Conn) (t : Topic) (u : Option UserId) :
    ∀ s : Mgr, usersWF s →
      usersWF (L.foldl (fun st ws => disconnect st ws t u) s) := by
  induction L with
  | nil =>
      intro s h
      exact h
  | cons a rest ih =>
      intro s h
      rw [List.foldl_cons]
      exact ih _ (usersWF_disconnect s a t u h)

theorem usersWF_broadcastToTopic (s : Mgr) (t : Topic) (ok : Conn → Bool)
    (h : usersWF s) : usersWF (broadcastToTopic s t ok).state := by
  unfold broadcastToTopic
  rcases ha : alookup s.active t with _ | conns
  · simp only [ha]
    exact h
  · simp only [ha]
    exact usersWF_foldl_disconnect _ t none s h

theorem usersWF_broadcastToUser (s : Mgr) (u : UserId) (t : Topic)
    (ok : Conn → Bool) (h : usersWF s) :
    usersWF (broadcastToUser s u t ok).state := by
  unfold broadcastToUser
  rcases hu : alookup s.users u with _ | udict
  · simp only [hu]
    exact h
  · simp only [hu]
    rcases ht : alookup udict t with _ | tset
    · simp only [ht]
      exact h
    · simp only [ht]
      exact usersWF_foldl_disconnect _ t (some u) s h

theorem usersWF_tick (s : Mgr) (tid : Nat) (rng : Rng) (ts : String)
    (ok : Conn → Bool) (e : Bool) (h : usersWF s) :
    usersWF (tick s tid rng ts ok e).1 := by
  unfold tick
  rcases hh : alookup s.taskHeap tid with _ | rec
  · simp only [hh]
    exact h
  · simp only [hh]
    obtain ⟨rtopic, rstatus⟩ := rec
    rcases rstatus with _ | _ | _
    · dsimp only
      by_cases hA : activeL s rtopic = ∅
      · rw [if_pos hA]
        exact usersWF_eq_of_users s _ (markDone_users s tid) h
      · rw [if_neg hA]
        rcases e with _ | _
        · rw [if_neg (by simp)]
          rcases hg : generateSampleData rng ts rtopic with _ | d
          · simp only [hg]
            exact h
          · simp only [hg]
            exact usersWF_broadcastToTopic s rtopic ok h
        · rw [if_pos rfl]
          exact usersWF_eq_of_users s _ (markDone_users s tid) h
    · exact usersWF_eq_of_users s _ (markDone_users s tid) h
    · exact h

theorem usersWF_initMgr : usersWF initMgr := by
  constructor
  · simp [initMgr]
  · intro p hp
    simp [initMgr] at hp

theorem usersWF_applyOp (s : Mgr) (op : Op) (h : usersWF s) :
    usersWF (applyOp s op) := by
  rcases op with ⟨ws, t, u⟩ | ⟨ws, t, u⟩ | ⟨t, ok⟩ | ⟨u, t, ok⟩ | ⟨tid, rng, ts, ok, e⟩
  · exact usersWF_connect s ws t u h
  · exact usersWF_disconnect s ws t u h
  · exact usersWF_broadcastToTopic s t ok h
  · exact usersWF_broadcastToUser s u t ok h
  · exact usersWF_tick s tid rng ts ok e h

theorem usersWF_runOps (ops : List Op) : usersWF (runOps ops) := by
  unfold runOps
  have hgen : ∀ (l : List Op) (s : Mgr), usersWF s → usersWF (l.foldl applyOp s) := by
    intro l
    induction l with
    | nil => exact fun s h => h
    | cons op rest ih =>
        intro s h
        rw [List.foldl_cons]
        exact ih _ (usersWF_applyOp s op h)
  exact hgen ops initMgr usersWF_initMgr

theorem disconnectUsers_users_of_not_mem (s : Mgr) (ws : Conn) (t : Topic)
    (uid : Option UserId) (hwf : usersWF s)
    (h : ∀ u, uid = some u → ws ∉ userL s u t) :
    (disconnectUsers s ws t uid).users = s.users := by
  rcases uid with _ | u0
  · rfl
  · by_cases hb : u0 = ""
    · subst hb
      have e : disconnectUsers s ws t (some "") = s := by
        unfold disconnectUsers
        simp
      rw [e]
    · have hws : ws ∉ userL s u0 t := h u0 rfl
      rcases hu : alookup s.users u0 with _ | udict
      · unfold disconnectUsers
        simp [hb, hu]
      · have hd := hwf.2 (u0, udict) (mem_of_alookup_eq _ hu)
        rcases ht : alookup udict t with _ | tset
        · unfold disconnectUsers
          simp [hb, hu, ht, hd.1, ainsert_of_alookup_eq _ hu]
        · have htne : tset ≠ ∅ := hd.2 (t, tset) (mem_of_alookup_eq _ ht)
          have hmem : ws ∉ tset := by
            have e : userL s u0 t = tset := by simp [userL, hu, ht]
            rw [e] at hws
            exact hws
          have hter : tset.erase ws = tset := Finset.erase_eq_of_not_mem hmem
          unfold disconnectUsers
          simp [hb, hu, ht, hter, htne, ainsert_of_alookup_eq _ ht,
            ainsert_of_alookup_eq _ hu, hd.1]

/-! ### The task-supervision invariant -/

theorem alookup_eq_of_mem_nodup {α β : Type} [DecidableEq α]
    {d : List (α × β)} (hnd : (d.map Prod.fst).Nodup) {p : α × β} (hp : p ∈ d) :
    alookup d p.1 = some p.2 := by
  induction d with
  | nil => simp at hp
  | cons q rest ih =>
      obtain ⟨a, b⟩ := q
      rcases List.mem_cons.mp hp with rfl | hp1
      · simp [alookup]
      · have ha : a ≠ p.1 := by
          intro hEq
          subst hEq
          exact (List.nodup_cons.mp hnd).1 (List.mem_map.mpr ⟨p, hp1, rfl⟩)

        have e : alookup ((a, b) :: rest) p.1 = alookup rest p.1 := by
          simp [alookup, ha]
        rw [e]
        exact ih (List.nodup_cons.mp hnd).2 hp1

theorem tasksInv_eq_of_fields (s s' : Mgr) (h1 : s'.tasks = s.tasks)
    (h2 : s'.taskHeap = s.taskHeap) (h3 : s'.nextTask = s.nextTask)
    (h : TasksInv s) : TasksInv s' := by
  unfold TasksInv
  rw [h1, h2, h3]
  exact h

theorem tasksInv_startTask (s : Mgr) (t : Topic) (h : TasksInv s)
    (hcond : ∀ p ∈ s.taskHeap, p.2.topic = t → p.2.status ≠ TaskSt.finished →
      False) : TasksInv (startTask s t) := by
  obtain ⟨hbound, hnd, hpoint, hdict⟩ := h
  have hfresh : alookup s.taskHeap s.nextTask = none := by
    rcases hx : alookup s.taskHeap s.nextTask with _ | v
    · rfl
    · exact absurd (hbound _ (mem_of_alookup_eq _ hx)) (by simp)
  have happ : ainsert s.taskHeap s.nextTask ⟨t, TaskSt.running⟩ =
      s.taskHeap ++ [(s.nextTask, ⟨t, TaskSt.running⟩)] :=
    ainsert_of_alookup_none _ _ hfresh
  refine ⟨?_, ?_, ?_, ?_⟩
  · intro p hp
    unfold startTask at hp
    rw [happ] at hp
    rcases List.mem_append.mp hp with hp1 | hp1
    · exact Nat.lt_succ_of_lt (hbound p hp1)
    · simp at hp1
      subst hp1
      exact Nat.lt_succ_self _
  · exact keys_nodup_ainsert _ _ _ hnd
  · intro p hp hlive
    unfold startTask at hp ⊢
    rcases mem_ainsert hp with rfl | hp1
    · exact alookup_ainsert_self _ _ _
    · have hne : p.2.topic ≠ t := fun hEq => hcond p hp1 hEq hlive
      rw [alookup_ainsert_ne _ _ hne]
      exact hpoint p hp1 hlive
  · intro t' tid' hl
    unfold startTask at hl ⊢
    by_cases ht' : t' = t
    · subst ht'
      rw [alookup_ainsert_self] at hl
      cases hl
      simp [alookup_ainsert_self]
    · rw [alookup_ainsert_ne _ _ ht'] at hl
      by_cases htid : tid' = s.nextTask
      · subst htid
        simp [alookup_ainsert_self]
      · rw [alookup_ainsert_ne _ _ htid]
        exact hdict t' tid' hl

theorem tasksInv_statusUpdate (s : Mgr) (tid : Nat) (rec : TaskRec)
    (st : TaskSt) (hrec : alookup s.taskHeap tid = some rec)
    (hlive : st ≠ TaskSt.finished → rec.status ≠ TaskSt.finished)
    (h : TasksInv s) :
    TasksInv { s with taskHeap := ainsert s.taskHeap tid ⟨rec.topic, st⟩ } := by
  obtain ⟨hbound, hnd, hpoint, hdict⟩ := h
  have hkeys : (ainsert s.taskHeap tid ⟨rec.topic, st⟩).map Prod.fst =
      s.taskHeap.map Prod.fst :=
    keys_ainsert_of_isSome _ _ (by simp [hrec])
  refine ⟨?_, ?_, ?_, ?_⟩
  · intro p hp
    rcases mem_ainsert hp with rfl | hp1
    · exact hbound (tid, rec) (mem_of_alookup_eq _ hrec)
    · exact hbound p hp1
  · rw [hkeys]
    exact hnd
  · intro p hp hl
    rcases mem_ainsert hp with rfl | hp1
    · exact hpoint (tid, rec) (mem_of_alookup_eq _ hrec) (hlive hl)
    · exact hpoint p hp1 hl
  · intro t' tid' hl
    rw [alookup_isSome_iff, hkeys, ← alookup_isSome_iff]
    exact hdict t' tid' hl

theorem tasksInv_cancelTask (s : Mgr) (tid : Nat) (h : TasksInv s) :
    TasksInv (cancelTask s tid) := by
  unfold cancelTask
  rcases hrec : alookup s.taskHeap tid with _ | rec
  · simp only [hrec]
    exact h
  · simp only [hrec]
    rcases hst : rec.status with _ | _ | _
    · exact tasksInv_statusUpdate s tid rec TaskSt.cancelRequested hrec
        (fun _ => by simp [hst]) h
    · exact h
    · exact h

theorem tasksInv_markDone (s : Mgr) (tid : Nat) (h : TasksInv s) :
    TasksInv (markDone s tid) := by
  unfold markDone
  rcases hrec : alookup s.taskHeap tid with _ | rec
  · simp only [hrec]
    exact h
  · simp only [hrec]
    exact tasksInv_statusUpdate s tid rec TaskSt.finished hrec
      (fun hx => absurd rfl hx) h

theorem tasksInv_connectTask (s : Mgr) (t : Topic) (h : TasksInv s) :
    TasksInv (connectTask s t) := by
  unfold connectTask
  rcases hl : alookup s.tasks t with _ | tid
  · simp only [hl]
    refine tasksInv_startTask s t h ?_
    intro p hp hpt hlive
    have := h.2.2.1 p hp hlive
    rw [hpt, hl] at this
    cases this
  · simp only [hl]
    by_cases hd : taskDone s tid
    · rw [if_pos hd]
      refine tasksInv_startTask s t h ?_
      intro p hp hpt hlive
      have hpt' := h.2.2.1 p hp hlive
      rw [hpt, hl] at hpt'
      cases hpt'
      unfold taskDone at hd
      rw [alookup_eq_of_mem_nodup h.2.1 hp] at hd
      simp at hd
      exact hlive hd
    · rw [if_neg hd]
      exact h

theorem tasksInv_connect (s : Mgr) (ws : Conn) (t : Topic) (u : Option UserId)
    (h : TasksInv s) : TasksInv (connect s ws t u) := by
  unfold connect
  refine tasksInv_connectTask _ t ?_
  refine tasksInv_eq_of_fields s _ ?_ ?_ ?_ h
  · rw [connectUsers_tasks, connectActive_tasks]
  · rw [connectUsers_taskHeap, connectActive_taskHeap]
  · rw [connectUsers_nextTask, connectActive_nextTask]

theorem tasksInv_disconnectActive (s : Mgr) (ws : Conn) (t : Topic)
    (h : TasksInv s) : TasksInv (disconnectActive s ws t) := by
  unfold disconnectActive
  rcases ha : alookup s.active t with _ | conns
  · simp only [ha]
    exact h
  · simp only [ha]
    have hrec : TasksInv { s with active := ainsert s.active t (conns.erase ws) } :=
      tasksInv_eq_of_fields s _ rfl rfl rfl h
    split
    · split
      · split
        · exact hrec
        · exact tasksInv_cancelTask _ _ hrec
      · exact hrec
    · exact hrec

theorem tasksInv_disconnect (s : Mgr) (ws : Conn) (t : Topic)
    (u : Option UserId) (h : TasksInv s) : TasksInv (disconnect s ws t u) := by
  refine tasksInv_eq_of_fields (disconnectActive s ws t) _ ?_ ?_ ?_
    (tasksInv_disconnectActive s ws t h)
  · exact disconnect_tasks_eq s ws t u
  · exact disconnect_taskHeap_eq s ws t u
  · unfold disconnect
    rw [disconnectUsers_nextTask]

theorem tasksInv_foldl_disconnect (L : List Conn) (t : Topic)
    (u : Option UserId) :
    ∀ s : Mgr, TasksInv s →
      TasksInv (L.foldl (fun st ws => disconnect st ws t u) s) := by
  induction L with
  | nil => exact fun s h => h
  | cons a rest ih =>
      intro s h
      rw [List.foldl_cons]
      exact ih _ (tasksInv_disconnect s a t u h)

theorem tasksInv_broadcastToTopic (s : Mgr) (t : Topic) (ok : Conn → Bool)
    (h : TasksInv s) : TasksInv (broadcastToTopic s t ok).state := by
  unfold broadcastToTopic
  rcases ha : alookup s.active t with _ | conns
  · simp only [ha]
    exact h
  · simp only [ha]
    exact tasksInv_foldl_disconnect _ t none s h

theorem tasksInv_broadcastToUser (s : Mgr) (u : UserId) (t : Topic)
    (ok : Conn → Bool) (h : TasksInv s) :
    TasksInv (broadcastToUser s u t ok).state := by
  unfold broadcastToUser
  rcases hu : alookup s.users u with _ | udict
  · simp only [hu]
    exact h
  · simp only [hu]
    rcases ht : alookup udict t with _ | tset
    · simp only [ht]
      exact h
    · simp only [ht]
      exact tasksInv_foldl_disconnect _ t (some u) s h

theorem tasksInv_tick (s : Mgr) (tid : Nat) (rng : Rng) (ts : String)
    (ok : Conn → Bool) (e : Bool) (h : TasksInv s) :
    TasksInv (tick s tid rng ts ok e).1 := by
  unfold tick
  rcases hh : alookup s.taskHeap tid with _ | rec
  · simp only [hh]
    exact h
  · simp only [hh]
    obtain ⟨rtopic, rstatus⟩ := rec
    rcases rstatus with _ | _ | _
    · dsimp only
      by_cases hA : activeL s rtopic = ∅
      · rw [if_pos hA]
        exact tasksInv_markDone s tid h
      · rw [if_neg hA]
        rcases e with _ | _
        · rw [if_neg (by simp)]
          rcases hg : generateSampleData rng ts rtopic with _ | d
          · simp only [hg]
            exact h
          · simp only [hg]
            exact tasksInv_broadcastToTopic s rtopic ok h
        · rw [if_pos rfl]
          exact tasksInv_markDone s tid h
    · exact tasksInv_markDone s tid h
    · exact h

theorem tasksInv_initMgr : TasksInv initMgr := by
  refine ⟨?_, ?_, ?_, ?_⟩
  · intro p hp
    simp [initMgr] at hp
  · simp [initMgr]
  · intro p hp
    simp [initMgr] at hp
  · intro t tid hl
    simp [initMgr] at hl

theorem tasksInv_applyOp (s : Mgr) (op : Op) (h : TasksInv s) :
    TasksInv (applyOp s op) := by
  rcases op with ⟨ws, t, u⟩ | ⟨ws, t, u⟩ | ⟨t, ok⟩ | ⟨u, t, ok⟩ |
    ⟨tid, rng, ts, ok, e⟩
  · exact tasksInv_connect s ws t u h
  · exact tasksInv_disconnect s ws t u h
  · exact tasksInv_broadcastToTopic s t ok h
  · exact tasksInv_broadcastToUser s u t ok h
  · exact tasksInv_tick s tid rng ts ok e h

theorem tasksInv_runOps (ops : List Op) : TasksInv (runOps ops) := by
  unfold runOps
  have hgen : ∀ (l : List Op) (s : Mgr), TasksInv s →
      TasksInv (l.foldl applyOp s) := by
    intro l
    induction l with
    | nil => exact fun s h => h
    | cons op rest ih =>
        intro s h
        rw [List.foldl_cons]
        exact ih _ (tasksInv_applyOp s op h)
  exact hgen ops initMgr tasksInv_initMgr

theorem liveTaskIds_length_le_one (s : Mgr) (ht : TasksInv s) (t : Topic) :
    (liveTaskIds s t).length ≤ 1 := by
  unfold liveTaskIds
  rw [List.length_map]
  generalize hL : s.taskHeap.filter
    (fun p => decide (p.2.topic = t ∧ p.2.status ≠ TaskSt.finished)) = l
  have hsub : l.Sublist s.taskHeap := by
    rw [← hL]
    exact List.filter_sublist _
  have hnd : (l.map Prod.fst).Nodup := (hsub.map _).nodup ht.2.1
  have hpt : ∀ p ∈ l, alookup s.tasks t = some p.1 := by
    intro p hp
    rw [← hL] at hp
    have hp' := List.mem_filter.mp hp
    have hd : p.2.topic = t ∧ p.2.status ≠ TaskSt.finished :=
      of_decide_eq_true hp'.2
    have h3 := ht.2.2.1 p hp'.1 hd.2
    rw [hd.1] at h3
    exact h3
  rcases l with _ | ⟨a, rest⟩
  · simp
  · rcases rest with _ | ⟨b, rest2⟩
    · simp
    · exfalso
      have ha := hpt a (List.mem_cons_self _ _)
      have hb := hpt b (by simp)
      have heq := ha.symm.trans hb
      injection heq with heq
      exact (List.nodup_cons.mp hnd).1 (by simp [heq])

theorem connect_no_new_task (s : Mgr) (ws : Conn) (t : Topic)
    (u : Option UserId) (tid : Nat) (hmap : alookup s.tasks t = some tid)
    (hlive : taskDone s tid = false) :
    (connect s ws t u).tasks = s.tasks ∧
    (connect s ws t u).taskHeap = s.taskHeap ∧
    (connect s ws t u).nextTask = s.nextTask := by
  unfold connect connectTask
  have e1 : (connectUsers (connectActive s ws t) ws t u).tasks = s.tasks := by
    rw [connectUsers_tasks, connectActive_tasks]
  have e2 : (connectUsers (connectActive s ws t) ws t u).taskHeap =
      s.taskHeap := by
    rw [connectUsers_taskHeap, connectActive_taskHeap]
  have e3 : (connectUsers (connectActive s ws t) ws t u).nextTask =
      s.nextTask := by
    rw [connectUsers_nextTask, connectActive_nextTask]
  have e4 : alookup (connectUsers (connectActive s ws t) ws t u).tasks t =
      some tid := by
    rw [e1]
    exact hmap
  have e5 : taskDone (connectUsers (connectActive s ws t) ws t u) tid =
      false := by
    unfold taskDone
    rw [e2]
    unfold taskDone at hlive
    exact hlive
  rw [e4]
  dsimp only
  rw [e5]
  simp only [Bool.false_eq_true, if_false]
  exact ⟨e1, e2, e3⟩

/-! ### Producer emission lemmas -/

theorem markDone_nextTask (s : Mgr) (tid : Nat) :
    (markDone s tid).nextTask = s.nextTask := by
  unfold markDone; split <;> rfl

theorem activeL_disconnect_sub (s : Mgr) (ws : Conn) (t' : Topic)
    (uid : Option UserId) (t : Topic) :
    activeL (disconnect s ws t' uid) t ⊆ activeL s t := by
  by_cases h : t = t'
  · subst h
    rw [activeL_disconnect, if_pos rfl]
    exact Finset.erase_subset _ _
  · rw [activeL_disconnect, if_neg h]

theorem activeL_foldl_disconnect_sub (L : List Conn) (t' : Topic)
    (uid : Option UserId) :
    ∀ (s : Mgr) (t : Topic),
      activeL (L.foldl (fun st ws => disconnect st ws t' uid) s) t ⊆
        activeL s t := by
  induction L with
  | nil =>
      intro s t
      exact fun x hx => hx
  | cons a rest ih =>
      intro s t
      rw [List.foldl_cons]
      exact (ih _ t).trans (activeL_disconnect_sub s a t' uid t)

theorem activeL_broadcastToTopic_sub (s : Mgr) (t' : Topic) (ok : Conn → Bool)
    (t : Topic) : activeL (broadcastToTopic s t' ok).state t ⊆ activeL s t := by
  unfold broadcastToTopic
  rcases h : alookup s.active t' with _ | conns
  · simp only [h]
    exact fun x hx => hx
  · simp only [h]
    exact activeL_foldl_disconnect_sub _ t' none s t

theorem activeL_broadcastToUser_sub (s : Mgr) (u : UserId) (t' : Topic)
    (ok : Conn → Bool) (t : Topic) :
    activeL (broadcastToUser s u t' ok).state t ⊆ activeL s t := by
  unfold broadcastToUser
  rcases hu : alookup s.users u with _ | udict
  · simp only [hu]
    exact fun x hx => hx
  · simp only [hu]
    rcases ht : alookup udict t' with _ | tset
    · simp only [ht]
      exact fun x hx => hx
    · simp only [ht]
      exact activeL_foldl_disconnect_sub _ t' (some u) s t

theorem activeL_tick_sub (s : Mgr) (tid : Nat) (rng : Rng) (ts : String)
    (ok : Conn → Bool) (e : Bool) (t : Topic) :
    activeL (tick s tid rng ts ok e).1 t ⊆ activeL s t := by
  have hmd : activeL (markDone s tid) t = activeL s t :=
    activeL_eq_of_users s _ (markDone_active s tid) t
  unfold tick
  rcases hh : alookup s.taskHeap tid with _ | rec
  · simp only [hh]
    exact fun x hx => hx
  · simp only [hh]
    obtain ⟨rtopic, rstatus⟩ := rec
    rcases rstatus with _ | _ | _
    · dsimp only
      by_cases hA : activeL s rtopic = ∅
      · rw [if_pos hA, hmd]
      · rw [if_neg hA]
        rcases e with _ | _
        · rw [if_neg (by simp)]
          rcases hg : generateSampleData rng ts rtopic with _ | d
          · simp only [hg]
            exact fun x hx => hx
          · simp only [hg]
            exact activeL_broadcastToTopic_sub s rtopic ok t
        · rw [if_pos rfl, hmd]
    · rw [hmd]
    · exact fun x hx => hx

theorem emitOp_ne_of_empty (s : Mgr) (t : Topic) (op : Op)
    (hA : activeL s t = ∅) : emitOp s op ≠ some t := by
  rcases op with ⟨ws, t', u⟩ | ⟨ws, t', u⟩ | ⟨t', ok⟩ | ⟨u', t', ok⟩ |
    ⟨tid, rng, ts, ok, e⟩
  · simp [emitOp]
  · simp [emitOp]
  · simp [emitOp]
  · simp [emitOp]
  · unfold emitOp tick
    rcases hh : alookup s.taskHeap tid with _ | rec
    · simp [hh]
    · simp only [hh]
      obtain ⟨rtopic, rstatus⟩ := rec
      rcases rstatus with _ | _ | _
      · dsimp only
        by_cases hAr : activeL s rtopic = ∅
        · rw [if_pos hAr]
          simp
        · rw [if_neg hAr]
          have hrt : rtopic ≠ t := by
            intro hEq
            subst hEq
            exact hAr hA
          rcases e with _ | _
          · rw [if_neg (by simp)]
            rcases hg : generateSampleData rng ts rtopic with _ | d
            · simp [hg]
            · simp [hg, hrt]
          · rw [if_pos rfl]
            simp
      · simp
      · simp

theorem activeL_applyOp_empty (s : Mgr) (t : Topic) (op : Op)
    (hA : activeL s t = ∅) (hreg : isRegOn t op = false) :
    activeL (applyOp s op) t = ∅ := by
  rcases op with ⟨ws, t', u⟩ | ⟨ws, t', u⟩ | ⟨t', ok⟩ | ⟨u', t', ok⟩ |
    ⟨tid, rng, ts, ok, e⟩
  · have ht : ¬(t' = t) := by
      simpa [isRegOn] using hreg
    show activeL (connect s ws t' u) t = ∅
    rw [activeL_connect, if_neg (fun hEq => ht hEq.symm)]
    exact hA
  · show activeL (disconnect s ws t' u) t = ∅
    rw [activeL_disconnect]
    by_cases hEq : t = t'
    · subst hEq
      rw [if_pos rfl, hA]
      simp
    · rw [if_neg hEq]
      exact hA
  · refine Finset.subset_empty.mp ?_
    rw [← hA]
    exact activeL_broadcastToTopic_sub s t' ok t
  · refine Finset.subset_empty.mp ?_
    rw [← hA]
    exact activeL_broadcastToUser_sub s u' t' ok t
  · refine Finset.subset_empty.mp ?_
    rw [← hA]
    exact activeL_tick_sub s tid rng ts ok e t

theorem emits_avoid (t : Topic) :
    ∀ (ops : List Op) (s : Mgr), activeL s t = ∅ →
      (∀ op ∈ ops, isRegOn t op = false) → t ∉ emits s ops := by
  intro ops
  induction ops with
  | nil =>
      intro s _ _
      simp [emits]
  | cons op rest ih =>
      intro s hA hreg
      unfold emits
      intro hmem
      rcases List.mem_append.mp hmem with hm | hm
      · rcases hop : emitOp s op with _ | t0
        · rw [hop] at hm
          simp at hm
        · rw [hop] at hm
          simp at hm
          subst hm
          exact emitOp_ne_of_empty s t op hA hop
      · exact ih (applyOp s op)
          (activeL_applyOp_empty s t op hA (hreg op (by simp)))
          (fun op2 h2 => hreg op2 (by simp [h2])) hm

theorem disconnect_cancel_detail (s : Mgr) (c : Conn) (t : Topic)
    (uid : Option UserId) (conns : Finset Conn) (tid : Nat)
    (h : alookup s.active t = some conns) (he : conns.erase c = ∅)
    (hmap : alookup s.tasks t = some tid) (hndone : taskDone s tid = false) :
    alookup (disconnect s c t uid).tasks t = some tid ∧
    ∃ rt, alookup (disconnect s c t uid).taskHeap tid =
      some ⟨rt, TaskSt.cancelRequested⟩ := by
  obtain ⟨rt, rs, hrec, hrs⟩ : ∃ rt rs,
      alookup s.taskHeap tid = some ⟨rt, rs⟩ ∧ rs ≠ TaskSt.finished := by
    unfold taskDone at hndone
    rcases hx : alookup s.taskHeap tid with _ | rec
    · rw [hx] at hndone
      simp at hndone
    · rw [hx] at hndone
      obtain ⟨rt, rs⟩ := rec
      refine ⟨rt, rs, rfl, ?_⟩
      simpa using hndone
  have e : disconnectActive s c t =
      cancelTask { s with active := ainsert s.active t (conns.erase c) } tid := by
    unfold disconnectActive
    simp only [h]
    rw [if_pos he]
    have hmap' : alookup
        ({ s with active := ainsert s.active t (conns.erase c) } : Mgr).tasks t =
        some tid := hmap
    rw [hmap']
    dsimp only
    have hnd' : taskDone
        ({ s with active := ainsert s.active t (conns.erase c) } : Mgr) tid =
        false := hndone
    rw [hnd']
    simp
  rw [disconnect_tasks_eq, disconnect_taskHeap_eq, e]
  have hrec' : alookup
      ({ s with active := ainsert s.active t (conns.erase c) } : Mgr).taskHeap
      tid = some ⟨rt, rs⟩ := hrec
  constructor
  · rw [cancelTask_tasks]
    exact hmap
  · unfold cancelTask
    rw [hrec']
    rcases rs with _ | _ | _
    · exact ⟨rt, alookup_ainsert_self _ _ _⟩
    · exact ⟨rt, hrec'⟩
    · exact absurd rfl hrs

theorem taskStatus_markDone_finished (s : Mgr) (tid : Nat) (t : Topic)
    (rec : TaskRec) (hh : alookup s.taskHeap tid = some rec)
    (ht : alookup s.tasks t = some tid) :
    taskStatus (markDone s tid) t = some TaskSt.finished := by
  unfold taskStatus markDone
  rw [hh]
  dsimp only
  have ht' : alookup
      ({ s with taskHeap := ainsert s.taskHeap tid ⟨rec.topic, TaskSt.finished⟩ } :
        Mgr).tasks t = some tid := ht
  rw [ht']
  dsimp only
  have hh' : alookup
      ({ s with taskHeap := ainsert s.taskHeap tid ⟨rec.topic, TaskSt.finished⟩ } :
        Mgr).taskHeap tid = some ⟨rec.topic, TaskSt.finished⟩ :=
    alookup_ainsert_self _ _ _
  rw [hh']

/-! ### Simulation of the registry by the spec-side counting -/

theorem activeL_initMgr (t : Topic) : activeL initMgr t = ∅ := by
  unfold activeL
  rcases h : alookup initMgr.active t with _ | v
  · rfl
  · have hm := mem_of_alookup_eq _ h
    simp [initMgr] at hm
    rcases hm with ⟨_, rfl⟩ | ⟨_, rfl⟩ | ⟨_, rfl⟩ | ⟨_, rfl⟩ | ⟨_, rfl⟩ |
      ⟨_, rfl⟩ <;> rfl

theorem userL_initMgr (u : UserId) (t : Topic) : userL initMgr u t = ∅ := by
  simp [userL, initMgr]

theorem step_activeL (s : Mgr) (op : RegOp) (t : Topic) :
    activeL (applyRegOp s op) t = specLiveStep t (activeL s t) op := by
  rcases op with ⟨ws, t0, u⟩ | ⟨ws, t0, u⟩
  · show activeL (connect s ws t0 u) t = _
    rw [activeL_connect]
    simp only [specLiveStep]
    by_cases h : t = t0
    · subst h
      rw [if_pos rfl]
    · rw [if_neg h, if_neg (Ne.symm h)]
  · show activeL (disconnect s ws t0 u) t = _
    rw [activeL_disconnect]
    simp only [specLiveStep]
    by_cases h : t = t0
    · subst h
      rw [if_pos rfl]
    · rw [if_neg h, if_neg (Ne.symm h)]

theorem runReg_activeL_gen :
    ∀ (ops : List RegOp) (s : Mgr) (t : Topic),
      activeL (ops.foldl applyRegOp s) t =
        ops.foldl (specLiveStep t) (activeL s t) := by
  intro ops
  induction ops with
  | nil => intro s t; rfl
  | cons op rest ih =>
      intro s t
      rw [List.foldl_cons, List.foldl_cons, ih, step_activeL]

theorem runReg_activeL (ops : List RegOp) (t : Topic) :
    activeL (runReg ops) t = specLive ops t := by
  unfold runReg specLive
  rw [runReg_activeL_gen, activeL_initMgr]

theorem step_userL (s : Mgr) (op : RegOp) (u : UserId) (t : Topic)
    (hv : regOpUid op ≠ some "") :
    userL (applyRegOp s op) u t = specUserStep u t (userL s u t) op := by
  rcases op with ⟨ws, t0, uid⟩ | ⟨ws, t0, uid⟩
  · show userL (connect s ws t0 uid) u t = _
    rcases uid with _ | u0
    · rw [userL_connect_none]
      rfl
    · have hb : u0 ≠ "" := by
        intro hEq
        subst hEq
        exact hv rfl
      rw [userL_connect_some _ _ _ _ hb]
      simp only [specUserStep]
      by_cases h : u = u0 ∧ t = t0
      · obtain ⟨rfl, rfl⟩ := h
        rw [if_pos ⟨rfl, rfl⟩]
      · rw [if_neg h, if_neg (fun hc => h ⟨hc.1.symm, hc.2.symm⟩)]
  · show userL (disconnect s ws t0 uid) u t = _
    rcases uid with _ | u0
    · rw [userL_disconnect_none]
      rfl
    · have hb : u0 ≠ "" := by
        intro hEq
        subst hEq
        exact hv rfl
      rw [userL_disconnect_some _ _ _ _ hb]
      simp only [specUserStep]
      by_cases h : u = u0 ∧ t = t0
      · obtain ⟨rfl, rfl⟩ := h
        rw [if_pos ⟨rfl, rfl⟩]
      · rw [if_neg h, if_neg (fun hc => h ⟨hc.1.symm, hc.2.symm⟩)]

theorem runReg_userL_gen :
    ∀ (ops : List RegOp), (∀ op ∈ ops, regOpUid op ≠ some "") →
      ∀ (s : Mgr) (u : UserId) (t : Topic),
        userL (ops.foldl applyRegOp s) u t =
          ops.foldl (specUserStep u t) (userL s u t) := by
  intro ops
  induction ops with
  | nil =>
      intro _ s u t
      rfl
  | cons op rest ih =>
      intro hv s u t
      rw [List.foldl_cons, List.foldl_cons,
        ih (fun o ho => hv o (by simp [ho])) _ u t,
        step_userL s op u t (hv op (by simp))]

theorem runReg_userL (ops : List RegOp)
    (hv : ∀ op ∈ ops, regOpUid op ≠ some "") (u : UserId) (t : Topic) :
    userL (runReg ops) u t = specUserSubs ops u t := by
  unfold runReg specUserSubs
  rw [runReg_userL_gen ops hv, userL_initMgr]

theorem usersWF_applyRegOp (s : Mgr) (op : RegOp) (h : usersWF s) :
    usersWF (applyRegOp s op) := by
  rcases op with ⟨ws, t, u⟩ | ⟨ws, t, u⟩
  · exact usersWF_connect s ws t u h
  · exact usersWF_disconnect s ws t u h

theorem usersWF_runReg (ops : List RegOp) : usersWF (runReg ops) := by
  unfold runReg
  have hgen : ∀ (l : List RegOp) (s : Mgr), usersWF s →
      usersWF (l.foldl applyRegOp s) := by
    intro l
    induction l with
    | nil => exact fun s h => h
    | cons op rest ih =>
        intro s h
        rw [List.foldl_cons]
        exact ih _ (usersWF_applyRegOp s op h)
  exact hgen ops initMgr usersWF_initMgr

theorem users_key_iff (s : Mgr) (hwf : usersWF s) (u : UserId) :
    (alookup s.users u).isSome ↔ ∃ t, userL s u t ≠ ∅ := by
  constructor
  · intro hs
    rcases hx : alookup s.users u with _ | d
    · rw [hx] at hs
      simp at hs
    · have hd := hwf.2 (u, d) (mem_of_alookup_eq _ hx)
      rcases d with _ | ⟨⟨t0, cs⟩, rest⟩
      · exact absurd rfl hd.1
      · refine ⟨t0, ?_⟩
        have he : userL s u t0 = cs := by
          simp [userL, hx, alookup]
        rw [he]
        exact hd.2 (t0, cs) (by simp)
  · rintro ⟨t, ht⟩
    rcases hx : alookup s.users u with _ | d
    · exfalso
      apply ht
      simp [userL, hx]
    · simp

theorem mem_specUserSubs_gen (u : UserId) (t : Topic) (c : Conn) :
    ∀ (ops : List RegOp) (acc : Finset Conn),
      c ∈ ops.foldl (specUserStep u t) acc →
      c ∈ acc ∨ RegOp.reg c t (some u) ∈ ops := by
  intro ops
  induction ops with
  | nil =>
      intro acc hc
      exact Or.inl hc
  | cons op rest ih =>
      intro acc hc
      rw [List.foldl_cons] at hc
      rcases ih _ hc with hstep | hrest
      · rcases op with ⟨c', t', uid⟩ | ⟨c', t', uid⟩
        · rcases uid with _ | u0
          · exact Or.inl hstep
          · simp only [specUserStep] at hstep
            by_cases hcond : u0 = u ∧ t' = t
            · rw [if_pos hcond] at hstep
              rcases Finset.mem_insert.mp hstep with rfl | hacc
              · obtain ⟨rfl, rfl⟩ := hcond
                exact Or.inr (by simp)
              · exact Or.inl hacc
            · rw [if_neg hcond] at hstep
              exact Or.inl hstep
        · rcases uid with _ | u0
          · exact Or.inl hstep
          · simp only [specUserStep] at hstep
            by_cases hcond : u0 = u ∧ t' = t
            · rw [if_pos hcond] at hstep
              exact Or.inl (Finset.mem_of_mem_erase hstep)
            · rw [if_neg hcond] at hstep
              exact Or.inl hstep
      · exact Or.inr (List.mem_cons_of_mem _ hrest)

theorem reg_mem_traceUsers {ops : List RegOp} {c : Conn} {t : Topic}
    {u : UserId} (h : RegOp.reg c t (some u) ∈ ops) : u ∈ traceUsers ops := by
  induction ops with
  | nil => simp at h
  | cons op rest ih =>
      unfold traceUsers
      rw [List.foldr_cons]
      rcases List.mem_cons.mp h with rfl | hrest
      · exact Finset.mem_union_left _ (by simp [opUsers])
      · exact Finset.mem_union_right _ (ih hrest)

theorem reg_mem_traceTopics {ops : List RegOp} {c : Conn} {t : Topic}
    {u : UserId} (h : RegOp.reg c t (some u) ∈ ops) : t ∈ traceTopics ops := by
  unfold traceTopics
  rw [List.mem_toFinset]
  exact List.mem_map.mpr ⟨RegOp.reg c t (some u), h, rfl⟩

theorem mem_specUsers_iff (ops : List RegOp) (u : UserId) :
    u ∈ specUsers ops ↔ ∃ t, specUserSubs ops u t ≠ ∅ := by
  unfold specUsers
  rw [Finset.mem_filter]
  constructor
  · rintro ⟨_, t, _, hne⟩
    exact ⟨t, hne⟩
  · rintro ⟨t, hne⟩
    obtain ⟨c, hc⟩ := Finset.nonempty_iff_ne_empty.mpr hne
    have hreg : RegOp.reg c t (some u) ∈ ops := by
      rcases mem_specUserSubs_gen u t c ops ∅ hc with hc0 | hr
      · simp at hc0
      · exact hr
    exact ⟨reg_mem_traceUsers hreg, t, reg_mem_traceTopics hreg, hne⟩

theorem alookup_map_snd {β γ : Type} (d : List (Topic × β)) (f : β → γ)
    (k : Topic) :
    alookup (d.map (fun p => (p.1, f p.2))) k = (alookup d k).map f := by
  induction d with
  | nil => rfl
  | cons p rest ih =>
      obtain ⟨a, b⟩ := p
      by_cases h : a = k
      · simp [alookup, h]
      · simp [alookup, h, ih]

theorem sum_entries_eq (d : List (Topic × Finset Conn))
    (hnd : (d.map Prod.fst).Nodup) :
    (d.map (fun p => p.2.card)).sum =
      ∑ k in (d.map Prod.fst).toFinset, ((alookup d k).getD ∅).card := by
  induction d with
  | nil => simp
  | cons p rest ih =>
      obtain ⟨a, b⟩ := p
      simp only [List.map_cons, List.sum_cons, List.toFinset_cons]
      have hnd' := List.nodup_cons.mp hnd
      have hni : a ∉ (rest.map Prod.fst).toFinset := by
        rw [List.mem_toFinset]
        exact hnd'.1
      rw [Finset.sum_insert hni]
      congr 1
      · simp [alookup]
      · rw [ih hnd'.2]
        apply Finset.sum_congr rfl
        intro k hk
        have hka : ¬(a = k) := by
          intro hEq
          subst hEq
          exact hnd'.1 (List.mem_toFinset.mp hk)
        simp [alookup, hka]

theorem activeKeys_nodup_connect (s : Mgr) (ws : Conn) (t : Topic)
    (u : Option UserId) (h : (s.active.map Prod.fst).Nodup) :
    ((connect s ws t u).active.map Prod.fst).Nodup := by
  rw [connect_active_eq]
  unfold connectActive
  rcases ha : alookup s.active t with _ | conns
  · simp only [ha]
    exact keys_nodup_ainsert _ _ _ h
  · simp only [ha]
    exact keys_nodup_ainsert _ _ _ h

theorem activeKeys_nodup_disconnect (s : Mgr) (ws : Conn) (t : Topic)
    (u : Option UserId) (h : (s.active.map Prod.fst).Nodup) :
    ((disconnect s ws t u).active.map Prod.fst).Nodup := by
  rw [disconnect_active_eq, disconnectActive_active]
  rcases ha : alookup s.active t with _ | conns
  · exact h
  · exact keys_nodup_ainsert _ _ _ h

theorem activeKeys_nodup_runReg (ops : List RegOp) :
    ((runReg ops).active.map Prod.fst).Nodup := by
  unfold runReg
  have hgen : ∀ (l : List RegOp) (s : Mgr), (s.active.map Prod.fst).Nodup →
      ((l.foldl applyRegOp s).active.map Prod.fst).Nodup := by
    intro l
    induction l with
    | nil => exact fun s h => h
    | cons op rest ih =>
        intro s h
        rw [List.foldl_cons]
        refine ih _ ?_
        rcases op with ⟨ws, t, u⟩ | ⟨ws, t, u⟩
        · exact activeKeys_nodup_connect s ws t u h
        · exact activeKeys_nodup_disconnect s ws t u h
  refine hgen ops initMgr ?_
  simp [initMgr]

/-! ### Claim theorems -/

/-- Claim C5: during one broadcast pass over a topic's snapshot, a send
failure to one connection raises no error (the operation is a total function)
and does not prevent delivery to any other connection of the same snapshot:
a connection of the pre-state snapshot receives the message exactly when its
own send succeeds, independently of every other connection's failure.
Eviction of the failed connections is deferred to after the pass: the
post-state topic set is the pre-state set minus exactly the failed
connections, and the delivered set is computed from the pre-state snapshot,
not from any intermediate state.  The same delivery property holds for the
user-scoped pass of `broadcast_to_user`. -/
theorem c5_broadcast_send_failure_isolated (s : Mgr) (t : Topic)
    (ok : Conn → Bool) (u : UserId) (ws : Conn) :
    (ws ∈ (broadcastToTopic s t ok).delivered ↔
      ws ∈ activeL s t ∧ ok ws = true) ∧
    (ws ∈ activeL (broadcastToTopic s t ok).state t ↔
      ws ∈ activeL s t ∧ ok ws = true) ∧
    (ws ∈ (broadcastToUser s u t ok).delivered ↔
      ws ∈ userL s u t ∧ ok ws = true) := by
  refine ⟨?_, ?_, ?_⟩
  · rcases h : alookup s.active t with _ | conns
    · simp [broadcastToTopic, h, activeL]
    · simp [broadcastToTopic, h, activeL, List.mem_filter, mem_snapshotList]
  · rcases h : alookup s.active t with _ | conns
    · simp [broadcastToTopic, h, activeL]
    · simp only [broadcastToTopic, h]
      rw [mem_activeL_foldl_disconnect]
      simp only [List.mem_filter, mem_snapshotList, activeL, h, Option.getD_some,
        Bool.not_eq_true']
      constructor
      · rintro ⟨hc, hni⟩
        refine ⟨hc, ?_⟩
        by_cases hok : ok ws = true
        · exact hok
        · exact absurd ⟨hc, by simp [hok]⟩ hni
      · rintro ⟨hc, hok⟩
        exact ⟨hc, fun hmem => by simp [hok] at hmem⟩
  · rcases hu : alookup s.users u with _ | udict
    · simp [broadcastToUser, hu, userL]
    · rcases ht : alookup udict t with _ | tset
      · simp [broadcastToUser, hu, ht, userL]
      · simp [broadcastToUser, hu, ht, userL, List.mem_filter, mem_snapshotList]

/-- Claim C7 (counterexample): the three authentication failure causes do NOT
get pairwise distinct close codes — a missing token and an invalid token both
close the connection with code 4001; only the identity mismatch differs
(4003). -/
theorem c7_close_codes_counterexample :
    closeCode (verifyAuth none "u1") =
      closeCode (verifyAuth (some TokenKind.invalid) "u1") ∧
    closeCode (verifyAuth none "u1") = some 4001 := by
  exact ⟨rfl, rfl⟩

/-- Claim C7 (amended): a missing token closes with 4001 "Authentication
required", an invalid/expired token closes with 4001 "Invalid token" — the
same numeric code, distinguished only by the reason string — while a path
user id that does not match the token subject closes with 4003, which differs
from the code of the other two causes. -/
theorem c7_close_codes_amended (pu : String) (sub : Option String)
    (hmis : sub ≠ some pu) :
    verifyAuth none pu = WsOutcome.closed 4001 "Authentication required" ∧
    verifyAuth (some TokenKind.invalid) pu =
      WsOutcome.closed 4001 "Invalid token" ∧
    verifyAuth (some (TokenKind.valid sub)) pu =
      WsOutcome.closed 4003 "User ID mismatch" ∧
    (4003 : Nat) ≠ 4001 := by
  refine ⟨rfl, rfl, ?_, by decide⟩
  simp [verifyAuth, hmis]

/-- Witness for the amended C7 theorem at the concrete pair of path user id
`u1` and token subject `u2`. -/
theorem c7_close_codes_amended_witness :
    verifyAuth (some (TokenKind.valid (some "u2"))) "u1" =
      WsOutcome.closed 4003 "User ID mismatch" :=
  (c7_close_codes_amended "u1" (some "u2") (by decide)).2.2.1

/-- Claim C9: every connection attempt that fails authentication (missing
token, invalid token, or path user id differing from the token subject) is
closed before `connect` is ever called: both user-scoped endpoints return the
registry state exactly as it was, with the failure's close code. -/
theorem c9_auth_failure_creates_no_registry_state (s : Mgr) (ws : Conn)
    (token : Option TokenKind) (pu : String) (c : Nat) (r : String)
    (h : verifyAuth token pu = WsOutcome.closed c r) :
    websocketAlerts s ws token pu = (s, WsOutcome.closed c r) ∧
    websocketMetrics s ws token pu = (s, WsOutcome.closed c r) := by
  constructor
  · simp [websocketAlerts, h]
  · simp [websocketMetrics, h]

/-- Witness for C9: the spec's concrete scenario — path user id `u1` with a
token whose subject is `u2` — leaves the fresh registry untouched and closes
with the identity-mismatch code. -/
theorem c9_auth_failure_witness :
    websocketAlerts initMgr 0 (some (TokenKind.valid (some "u2"))) "u1" =
      (initMgr, WsOutcome.closed 4003 "User ID mismatch") :=
  (c9_auth_failure_creates_no_registry_state initMgr 0
    (some (TokenKind.valid (some "u2"))) "u1" 4003 "User ID mismatch"
    (by decide)).1

/-- Claim C10: for every topic other than `alerts`, `metrics`, `network` and
`resources` — including the canonical topics `logs` and `general` —
`_generate_sample_data` returns `None`, so a producer-loop round for such a
topic performs no broadcast and leaves the state unchanged. -/
theorem c10_unhandled_topics_stream_nothing (rng : Rng) (ts : String)
    (topic : Topic) (h1 : topic ≠ "alerts") (h2 : topic ≠ "metrics")
    (h3 : topic ≠ "network") (h4 : topic ≠ "resources") :
    generateSampleData rng ts topic = none ∧
    ∀ (s : Mgr) (tid : Nat) (ok : Conn → Bool),
      alookup s.taskHeap tid = some ⟨topic, TaskSt.running⟩ →
      activeL s topic ≠ ∅ →
      tick s tid rng ts ok false = (s, none) := by
  have hg : generateSampleData rng ts topic = none := by
    simp [generateSampleData, h1, h2, h3, h4]
  refine ⟨hg, ?_⟩
  intro s tid ok hheap hne
  unfold tick
  rw [hheap]
  simp [hne, hg]

/-- Witness for C10 at the canonical topic `logs`, with one subscriber
connected: the generator yields nothing and the producer round broadcasts
nothing. -/
theorem c10_unhandled_topics_witness :
    generateSampleData sampleRng "ts" "logs" = none ∧
    tick (connect initMgr 0 "logs" none) 0 sampleRng "ts" (fun _ => true) false
      = (connect initMgr 0 "logs" none, none) := by
  have h := c10_unhandled_topics_stream_nothing sampleRng "ts" "logs"
    (by decide) (by decide) (by decide) (by decide)
  exact ⟨h.1, h.2 (connect initMgr 0 "logs" none) 0 (fun _ => true)
    (by decide) (by decide)⟩

/-- Claim C1: for every finite sequence of Register/Deregister calls (with
the user ids that are provided non-empty, as the HTTP path parameters
guarantee), `get_connection_stats` reports, per topic, exactly the number of
connections registered and not yet deregistered for that topic (spec-side
count `specLive`); `total_connections` is the sum of the reported per-topic
counts, which over the (distinct) stored topics equals the sum of the
spec-side live counts; and `user_sessions` is the number of distinct user ids that currently
hold at least one active user-scoped subscription (spec-side count
`specUsers`). -/
theorem c1_stats_report_correct (ops : List RegOp)
    (hv : ∀ op ∈ ops, regOpUid op ≠ some "") :
    (∀ t : Topic,
      (alookup (getConnectionStats (runReg ops)).topicConnections t).getD 0 =
        (specLive ops t).card) ∧
    (getConnectionStats (runReg ops)).totalConnections =
      ((getConnectionStats (runReg ops)).topicConnections.map Prod.snd).sum ∧
    (getConnectionStats (runReg ops)).totalConnections =
      ∑ t in ((runReg ops).active.map Prod.fst).toFinset,
        (specLive ops t).card ∧
    (getConnectionStats (runReg ops)).userSessions = (specUsers ops).card := by
  refine ⟨?_, rfl, ?_, ?_⟩
  · intro t
    have htc : (getConnectionStats (runReg ops)).topicConnections =
        (runReg ops).active.map (fun p => (p.1, p.2.card)) := rfl
    rw [htc, alookup_map_snd]
    have hsim := runReg_activeL ops t
    rcases h : alookup (runReg ops).active t with _ | conns
    · have he : specLive ops t = ∅ := by
        rw [← hsim, activeL, h]
        rfl
      rw [he]
      simp
    · have he : specLive ops t = conns := by
        rw [← hsim, activeL, h]
        rfl
      rw [he]
      simp
  · have h2 : (getConnectionStats (runReg ops)).totalConnections =
        ((runReg ops).active.map (fun p => p.2.card)).sum := by
      show ((((runReg ops).active.map
        (fun p => (p.1, p.2.card))).map Prod.snd).sum) = _
      rw [List.map_map]
      rfl
    rw [h2, sum_entries_eq _ (activeKeys_nodup_runReg ops)]
    apply Finset.sum_congr rfl
    intro t ht
    have hsim := runReg_activeL ops t
    rw [← hsim, activeL]
  · have hus : (getConnectionStats (runReg ops)).userSessions =
        (runReg ops).users.length := rfl
    rw [hus]
    have hwf := usersWF_runReg ops
    have hnd : ((runReg ops).users.map Prod.fst).Nodup := hwf.1
    have hlen : (runReg ops).users.length =
        ((runReg ops).users.map Prod.fst).length := (List.length_map _ _).symm
    rw [hlen, ← List.toFinset_card_of_nodup hnd]
    congr 1
    apply Finset.ext
    intro u
    rw [List.mem_toFinset, ← alookup_isSome_iff, users_key_iff _ hwf u,
      mem_specUsers_iff]
    constructor
    · rintro ⟨t, ht⟩
      refine ⟨t, ?_⟩
      rw [← runReg_userL ops hv u t]
      exact ht
    · rintro ⟨t, ht⟩
      refine ⟨t, ?_⟩
      rw [runReg_userL ops hv u t]
      exact ht

/-- Witness for C1 at the spec's concrete scenario: register connection 0 on
`alerts` as user `u1` and an anonymous connection 1 on `alerts`, then
deregister connection 0; the reported `alerts` count matches the spec-side
live count and `user_sessions` matches the spec-side distinct-user count. -/
theorem c1_stats_report_witness :
    (alookup (getConnectionStats (runReg [RegOp.reg 0 "alerts" (some "u1"),
        RegOp.reg 1 "alerts" none,
        RegOp.dereg 0 "alerts" (some "u1")])).topicConnections "alerts").getD 0 =
      (specLive [RegOp.reg 0 "alerts" (some "u1"), RegOp.reg 1 "alerts" none,
        RegOp.dereg 0 "alerts" (some "u1")] "alerts").card ∧
    (getConnectionStats (runReg [RegOp.reg 0 "alerts" (some "u1"),
        RegOp.reg 1 "alerts" none,
        RegOp.dereg 0 "alerts" (some "u1")])).userSessions =
      (specUsers [RegOp.reg 0 "alerts" (some "u1"), RegOp.reg 1 "alerts" none,
        RegOp.dereg 0 "alerts" (some "u1")]).card := by
  have h := c1_stats_report_correct [RegOp.reg 0 "alerts" (some "u1"),
    RegOp.reg 1 "alerts" none, RegOp.dereg 0 "alerts" (some "u1")] (by decide)
  exact ⟨h.1 "alerts", h.2.2.2⟩

/-- Claim C6: when Deregister removes the last connection of a topic whose
stored producer task is not done, the task's cancellation is requested by that
very call; the cancellation is observed within one scheduling round — the
task's next round broadcasts nothing and leaves the task finished (cancelled);
and from the resulting empty-topic state, no sequence of further operations
that contains no Register on that topic ever produces a producer broadcast
for it. -/
theorem c6_last_deregister_cancels_producer (s : Mgr) (c : Conn) (t : Topic)
    (uid : Option UserId) (conns : Finset Conn) (tid : Nat)
    (h : alookup s.active t = some conns) (he : conns.erase c = ∅)
    (hmap : alookup s.tasks t = some tid) (hndone : taskDone s tid = false) :
    activeL (disconnect s c t uid) t = ∅ ∧
    taskStatus (disconnect s c t uid) t = some TaskSt.cancelRequested ∧
    (∀ (rng : Rng) (ts : String) (ok : Conn → Bool) (e : Bool),
      (tick (disconnect s c t uid) tid rng ts ok e).2 = none ∧
      taskStatus (tick (disconnect s c t uid) tid rng ts ok e).1 t =
        some TaskSt.finished) ∧
    (∀ ops2 : List Op, (∀ op ∈ ops2, isRegOn t op = false) →
      t ∉ emits (disconnect s c t uid) ops2) := by
  obtain ⟨htasks, rt, hheap⟩ :=
    disconnect_cancel_detail s c t uid conns tid h he hmap hndone
  have hAempty : activeL (disconnect s c t uid) t = ∅ := by
    rw [activeL_disconnect, if_pos rfl]
    rw [activeL, h]
    simpa using he
  refine ⟨hAempty, ?_, ?_, ?_⟩
  · unfold taskStatus
    rw [htasks]
    dsimp only
    rw [hheap]
  · intro rng ts ok e
    have hstep : tick (disconnect s c t uid) tid rng ts ok e =
        (markDone (disconnect s c t uid) tid, none) := by
      unfold tick
      rw [hheap]
    refine ⟨by rw [hstep], ?_⟩
    rw [hstep]
    exact taskStatus_markDone_finished _ tid t _ hheap htasks
  · intro ops2 hreg
    exact emits_avoid t ops2 _ hAempty hreg

/-- Witness for C6: connection 0 registers on `alerts` (starting task 0) and
then deregisters; the disconnect call empties the topic, the task transitions
to cancel-requested, the next round finishes it without broadcasting, and a
tick sequence without any new Register emits no `alerts` broadcast. -/
theorem c6_last_deregister_witness :
    activeL (disconnect (runOps [Op.reg 0 "alerts" none]) 0 "alerts" none)
      "alerts" = ∅ ∧
    taskStatus (disconnect (runOps [Op.reg 0 "alerts" none]) 0 "alerts" none)
      "alerts" = some TaskSt.cancelRequested ∧
    "alerts" ∉ emits
      (disconnect (runOps [Op.reg 0 "alerts" none]) 0 "alerts" none)
      [Op.tickOp 0 sampleRng "ts" (fun _ => true) false] := by
  have h := c6_last_deregister_cancels_producer (runOps [Op.reg 0 "alerts" none])
    0 "alerts" none {0} 0 (by decide) (by decide) (by decide) (by decide)
  refine ⟨h.1, h.2.1, h.2.2.2 [Op.tickOp 0 sampleRng "ts" (fun _ => true) false] ?_⟩
  intro op hop
  rcases List.mem_singleton.mp hop with rfl
  rfl

/-- Claim C8 (counterexample): an unexpected error in the producer loop does
NOT pause-and-retry.  With a subscriber still connected to `alerts`, the
round that raises leaves the task finished (the `except Exception` handler is
outside the `while`, so the coroutine logs and returns), and the following
scheduling round of that task broadcasts nothing: the topic's stream has
terminated even though a connection remains subscribed. -/
theorem c8_producer_error_counterexample :
    activeL (connect initMgr 0 "alerts" none) "alerts" ≠ ∅ ∧
    taskStatus (tick (connect initMgr 0 "alerts" none) 0 sampleRng "ts"
      (fun _ => true) true).1 "alerts" = some TaskSt.finished ∧
    (tick (tick (connect initMgr 0 "alerts" none) 0 sampleRng "ts"
      (fun _ => true) true).1 0 sampleRng "ts" (fun _ => true) false).2 =
      none := by
  refine ⟨by decide, by decide, by decide⟩

/-- Claim C8 (amended): when the producer loop's generation or broadcast
raises an unexpected error while the topic still has subscribers, the error
is logged and contained — the host does not crash (the round is a total
function) and no broadcast happens that round — but the loop does not retry:
the exception escapes the `while` into the `except Exception` handler and the
coroutine returns, leaving the task done.  The stream stays silent until a
new Register, which finds the stored task done and starts a fresh running
producer. -/
theorem c8_producer_error_ends_loop (s : Mgr) (tid : Nat) (rng : Rng)
    (ts : String) (ok : Conn → Bool) (rt : Topic)
    (hheap : alookup s.taskHeap tid = some ⟨rt, TaskSt.running⟩)
    (hne : activeL s rt ≠ ∅) :
    tick s tid rng ts ok true = (markDone s tid, none) ∧
    alookup (markDone s tid).taskHeap tid = some ⟨rt, TaskSt.finished⟩ ∧
    (∀ (ws : Conn) (u : Option UserId), alookup s.tasks rt = some tid →
      alookup (connect (markDone s tid) ws rt u).taskHeap s.nextTask =
        some ⟨rt, TaskSt.running⟩) := by
  have h1 : tick s tid rng ts ok true = (markDone s tid, none) := by
    unfold tick
    rw [hheap]
    dsimp only
    rw [if_neg hne, if_pos rfl]
  have h2 : alookup (markDone s tid).taskHeap tid =
      some ⟨rt, TaskSt.finished⟩ := by
    unfold markDone
    rw [hheap]
    exact alookup_ainsert_self _ _ _
  refine ⟨h1, h2, ?_⟩
  intro ws u hmap
  unfold connect connectTask
  have e1 : (connectUsers (connectActive (markDone s tid) ws rt) ws rt u).tasks =
      s.tasks := by
    rw [connectUsers_tasks, connectActive_tasks, markDone_tasks]
  have e2 : (connectUsers (connectActive (markDone s tid) ws rt) ws rt u).taskHeap =
      (markDone s tid).taskHeap := by
    rw [connectUsers_taskHeap, connectActive_taskHeap]
  have e3 : (connectUsers (connectActive (markDone s tid) ws rt) ws rt u).nextTask =
      s.nextTask := by
    rw [connectUsers_nextTask, connectActive_nextTask, markDone_nextTask]
  have e4 : alookup
      (connectUsers (connectActive (markDone s tid) ws rt) ws rt u).tasks rt =
      some tid := by
    rw [e1]
    exact hmap
  have e5 : taskDone
      (connectUsers (connectActive (markDone s tid) ws rt) ws rt u) tid =
      true := by
    unfold taskDone
    rw [e2, h2]
    simp
  simp only [e4, e5, if_true]
  unfold startTask
  rw [e2, e3]
  exact alookup_ainsert_self _ _ _

/-- Witness for the amended C8 theorem: one subscriber on `alerts`, task 0
running; the erroring round ends the task without broadcasting. -/
theorem c8_producer_error_witness :
    tick (connect initMgr 0 "alerts" none) 0 sampleRng "ts" (fun _ => true)
      true = (markDone (connect initMgr 0 "alerts" none) 0, none) :=
  (c8_producer_error_ends_loop (connect initMgr 0 "alerts" none) 0 sampleRng
    "ts" (fun _ => true) "alerts" (by decide) (by decide)).1

/-- Claim C2 (counterexample): the subset-view invariant is NOT preserved by
`broadcast_to_topic`'s send-failure eviction path.  Register a connection on
`alerts` under user `u1`, then broadcast to `alerts` with the send failing:
the eviction calls `disconnect` without a user id, so the connection leaves
`active_connections` while its `{Connection, Topic, UserID}` entry survives
in `user_connections` — a reachable state violating the invariant. -/
theorem c2_subset_view_counterexample :
    ¬ subsetInv
      (broadcastToTopic (connect initMgr 0 "alerts" (some "u1")) "alerts"
        (fun _ => false)).state := by
  intro h
  have h0 := h "u1" "alerts" 0 (by decide)
  revert h0
  decide

/-- Claim C2 (amended): Register preserves the subset-view invariant
unconditionally; Deregister preserves it provided it names the (non-empty)
user id under which the connection is registered for the topic (as the
endpoints do); BroadcastToUser's eviction path preserves it whenever each
connection is held by at most one user and the user id is non-empty.  The
plain Broadcast eviction path deregisters without a user id and violates the
invariant (see the counterexample). -/
theorem c2_subset_view_amended :
    (∀ (s : Mgr) (ws : Conn) (t : Topic) (u : Option UserId),
      subsetInv s → subsetInv (connect s ws t u)) ∧
    (∀ (s : Mgr) (ws : Conn) (t : Topic) (uid : Option UserId),
      subsetInv s →
      (∀ u', ws ∈ userL s u' t → uid = some u' ∧ u' ≠ "") →
      subsetInv (disconnect s ws t uid)) ∧
    (∀ (s : Mgr) (u : UserId) (t : Topic) (ok : Conn → Bool),
      u ≠ "" → subsetInv s → uniqueOwner s →
      subsetInv (broadcastToUser s u t ok).state) := by
  refine ⟨subsetInv_connect, subsetInv_disconnect, ?_⟩
  intro s u t ok hu hP hU
  unfold broadcastToUser
  rcases hus : alookup s.users u with _ | udict
  · simp only [hus]
    exact hP
  · simp only [hus]
    rcases ht : alookup udict t with _ | tset
    · simp only [ht]
      exact hP
    · simp only [ht]
      have htset : userL s u t = tset := by
        simp [userL, hus, ht]
      refine subsetInv_foldl_disconnect_user _ t u hu s hP hU ?_ ?_
      · intro c hc
        rw [htset]
        exact (mem_snapshotList tset c).mp (List.mem_of_mem_filter hc)
      · exact (snapshotList_nodup tset).filter _

/-- Witness for the amended C2 theorem: all three preservation statements
applied at the fresh registry (whose user map is empty, so the hypotheses
hold), registering and deregistering connection 0 on `alerts`. -/
theorem c2_subset_view_amended_witness :
    subsetInv (connect initMgr 0 "alerts" (some "u1")) ∧
    subsetInv (disconnect initMgr 0 "alerts" none) ∧
    subsetInv (broadcastToUser initMgr "u1" "alerts" (fun _ => false)).state := by
  have hP : subsetInv initMgr := by
    intro u t c hc
    simp [userL, initMgr] at hc
  have hU : uniqueOwner initMgr := by
    intro c t u1 u2 h1 h2
    simp [userL, initMgr] at h1
  have hH : ∀ u', (0 : Conn) ∈ userL initMgr u' "alerts" →
      (none : Option UserId) = some u' ∧ u' ≠ "" := by
    intro u' h'
    simp [userL, initMgr] at h'
  exact ⟨c2_subset_view_amended.1 initMgr 0 "alerts" (some "u1") hP,
    c2_subset_view_amended.2.1 initMgr 0 "alerts" none hP hH,
    c2_subset_view_amended.2.2 initMgr "u1" "alerts" (fun _ => false)
      (by decide) hP hU⟩

/-- Claim C3: deregistration is idempotent.  In every reachable registry
state, deregistering a connection that is not present for the given topic —
neither in the topic's connection set nor, when a user id is passed, in that
user's set for the topic (in particular, a second deregistration with the
same arguments) — leaves both `active_connections` and `user_connections`
exactly as they were; being a total function, `disconnect` raises no
error. -/
theorem c3_deregister_idempotent (ops : List Op) (c : Conn) (t : Topic)
    (uid : Option UserId)
    (h1 : c ∉ activeL (runOps ops) t)
    (h2 : ∀ u, uid = some u → c ∉ userL (runOps ops) u t) :
    (disconnect (runOps ops) c t uid).active = (runOps ops).active ∧
    (disconnect (runOps ops) c t uid).users = (runOps ops).users := by
  constructor
  · rw [disconnect_active_eq, disconnectActive_active]
    rcases h : alookup (runOps ops).active t with _ | conns
    · rfl
    · have hc : c ∉ conns := by
        rw [activeL, h] at h1
        simpa using h1
      dsimp only
      rw [Finset.erase_eq_of_not_mem hc, ainsert_of_alookup_eq _ h]
  · rw [disconnect_users_eq]
    have husers : (disconnectActive (runOps ops) c t).users = (runOps ops).users :=
      disconnectActive_users (runOps ops) c t
    have hwf1 : usersWF (disconnectActive (runOps ops) c t) :=
      usersWF_eq_of_users (runOps ops) _ husers (usersWF_runOps ops)
    rw [disconnectUsers_users_of_not_mem _ c t uid hwf1 ?_]
    · exact husers
    · intro u hu
      rw [userL_eq_of_users (runOps ops) _ husers u t]
      exact h2 u hu

/-- Claim C4: in every reachable state each topic has at most one not-yet-done
producer task, and starting a producer is idempotent — `connect` on a topic
whose stored task exists and is not done creates no task at all (the task
dict, the set of ever-created tasks and the fresh-task counter are all
unchanged), including when the stored task is mid-cancellation, since a
cancel-requested task is not yet `done()`. -/
theorem c4_at_most_one_producer_per_topic :
    (∀ (ops : List Op) (t : Topic), (liveTaskIds (runOps ops) t).length ≤ 1) ∧
    (∀ (s : Mgr) (ws : Conn) (t : Topic) (u : Option UserId) (tid : Nat),
      alookup s.tasks t = some tid → taskDone s tid = false →
      (connect s ws t u).tasks = s.tasks ∧
      (connect s ws t u).taskHeap = s.taskHeap ∧
      (connect s ws t u).nextTask = s.nextTask) := by
  constructor
  · intro ops t
    exact liveTaskIds_length_le_one (runOps ops) (tasksInv_runOps ops) t
  · intro s ws t u tid hmap hlive
    exact connect_no_new_task s ws t u tid hmap hlive

/-- Witness for C4: with connection 0 registered on `alerts` (task 0 running)
and the task mid-cancellation after the last deregistration, a second
register starts no new task. -/
theorem c4_at_most_one_producer_witness :
    (connect (disconnect (runOps [Op.reg 0 "alerts" none]) 0 "alerts" none)
        1 "alerts" none).taskHeap =
      (disconnect (runOps [Op.reg 0 "alerts" none]) 0 "alerts" none).taskHeap ∧
    (liveTaskIds (runOps [Op.reg 0 "alerts" none]) "alerts").length ≤ 1 := by
  constructor
  · exact (c4_at_most_one_producer_per_topic.2
      (disconnect (runOps [Op.reg 0 "alerts" none]) 0 "alerts" none)
      1 "alerts" none 0 (by decide) (by decide)).2.1
  · exact c4_at_most_one_producer_per_topic.1 [Op.reg 0 "alerts" none] "alerts"

/-- Witness for C3: register connection 0 on `alerts` under `u1` and
deregister it; a second deregistration with the same arguments changes
neither map. -/
theorem c3_deregister_idempotent_witness :
    (disconnect (runOps [Op.reg 0 "alerts" (some "u1"),
        Op.dereg 0 "alerts" (some "u1")]) 0 "alerts" (some "u1")).active =
      (runOps [Op.reg 0 "alerts" (some "u1"),
        Op.dereg 0 "alerts" (some "u1")]).active ∧
    (disconnect (runOps [Op.reg 0 "alerts" (some "u1"),
        Op.dereg 0 "alerts" (some "u1")]) 0 "alerts" (some "u1")).users =
      (runOps [Op.reg 0 "alerts" (some "u1"),
        Op.dereg 0 "alerts" (some "u1")]).users := by
  refine c3_deregister_idempotent
    [Op.reg 0 "alerts" (some "u1"), Op.dereg 0 "alerts" (some "u1")]
    0 "alerts" (some "u1") (by decide) ?_
  intro u hu
  injection hu with hu'
  subst hu'
  decide

end RTM
